import Mathlib

/-!
# motarei `proxy` package: connection-handling engine

A shallow embedding of `src/proxy/proxy.go`.

* The single-threaded opening of `handleConn` (lines 68-99: resolver call,
  empty check, failover dial loop, give-up test) is a function of the
  outcomes delivered by the collaborators (`Env`).
* The concurrent remainder of `handleConn` (lines 101-132: the two relay
  goroutines and the handler waiting on `doneCh`) is a labelled step
  function `handleConn.step` over an explicit state; an interleaving is a
  list of `Action`s. Reads and writes of `goClose` are interleaved
  sequentially consistently.
* `Start` (lines 39-66) is treated the same way: lines 40-48 as a function,
  then a step function over the accept loop, the cancellation watcher
  goroutine and the dispatched handlers.

Every operation with an effect outside the goroutine that performs it is
appended to the `events` field of the state, in execution order.
-/

namespace Motarei

/-! ## Data model -/

/-- Go `error` values that are not nil, identified by their message. -/
abbrev Err := String

/-- Identity of a `net.Conn` handle. -/
abbrev Conn := Nat

/-- The one field of `discovery.Backend` that `handleConn` reads. -/
structure Backend where
  PublicPort : Nat
deriving DecidableEq, Repr

/-- A dial target `host:port`, as built by `fmt.Sprintf("127.0.0.1:%d", ...)`. -/
structure Addr where
  host : String
  port : Nat
deriving DecidableEq, Repr

/-- Fields of `Proxy` (lines 19-25); the resolver `d` is part of `Env`. -/
structure Proxy where
  listen : String
  /-- A `uint16` in the source. -/
  port : Nat
  /-- A `time.Duration` in the source. -/
  timeout : Nat
deriving DecidableEq, Repr

/-- The two relay goroutines of a session: line 102 (`client => upstream`)
and line 115 (`upstream => client`). -/
inductive Task where
  | clientToUpstream
  | upstreamToClient
deriving DecidableEq, Repr

/-- The `log.Printf` calls of `handleConn`, by format string. -/
inductive LogMsg where
  /-- Line 71: "Failed to get backends: %v". -/
  | failedGetBackends (err : Err)
  /-- Line 77: "Failed to get backends port". -/
  | failedGetBackendsPort
  /-- Line 88: "Failed to connect backend: %v". -/
  | failedConnect (err : Err)
  /-- Line 93: "Giveup to connect backends: %v". -/
  | giveup (err : Err)
  /-- Line 107: "Copy from client: %v". -/
  | copyFromClient (err : Err)
  /-- Line 120: "Copy from upstream: %v". -/
  | copyFromUpstream (err : Err)
deriving DecidableEq, Repr

/-- Operations of `handleConn`, recorded in execution order. -/
inductive Event where
  /-- Line 69: `p.d.Get(ctx, port)`. -/
  | get (port : Nat)
  /-- A `log.Printf`. -/
  | log (m : LogMsg)
  /-- Line 84: `net.DialTimeout("tcp", addr, timeout)` returned the handle
  `conn` (`none` when it returned an error). -/
  | dialTimeout (addr : Addr) (timeout : Nat) (conn : Option Conn)
  /-- Lines 72, 78, 94, 130: `c.Close()`. -/
  | closeClient
  /-- Line 129: `s.Close()`. -/
  | closeUpstream (s : Conn)
  /-- Lines 102, 115: `go func() ...`. -/
  | go (t : Task)
  /-- Lines 104, 117: `io.Copy` returned in task `t` with `err`. -/
  | copyReturn (t : Task) (err : Option Err)
  /-- Lines 106, 119: task `t` evaluates `!goClose`. -/
  | testGoClose (t : Task)
  /-- Lines 103/116 with 127/131: the deferred `doneCh <- true` of task `t`
  meets a `<-doneCh` of the handler (the channel is unbuffered). -/
  | done (t : Task)
  /-- Line 128: `goClose = true`. -/
  | setGoClose
deriving DecidableEq, Repr

/-- Outcomes delivered to one `handleConn` call by its collaborators. -/
structure Env where
  /-- Result `(backends, err)` of `p.d.Get(ctx, port)`. -/
  Get : Nat → List Backend × Option Err
  /-- Result of the `k`-th `net.DialTimeout` call of this handler
  (`k` counts from 0), given target and timeout. -/
  DialTimeout : Nat → Addr → Nat → Except Err Conn

/-- Program counter of the handler goroutine. -/
inductive HPc where
  /-- Line 102: about to start `client => upstream`. -/
  | goClient
  /-- Line 115: about to start `upstream => client`. -/
  | goUpstream
  /-- Line 127: first `<-doneCh`. -/
  | recvFirst
  /-- Line 128. -/
  | setGoClose
  /-- Line 129. -/
  | closeUpstream
  /-- Line 130. -/
  | closeClient
  /-- Line 131: second `<-doneCh`. -/
  | recvSecond
  /-- The call has returned `err` (lines 73, 79, 95, 132). -/
  | returned (err : Option Err)
deriving DecidableEq, Repr

/-- Program counter of a relay goroutine. -/
inductive TPc where
  /-- The `go` statement has not run. -/
  | notStarted
  /-- Inside `io.Copy`. -/
  | copying
  /-- After `io.Copy` returned `err`, before `if err != nil`. -/
  | copied (err : Option Err)
  /-- `!goClose` was true; before `log.Printf`. -/
  | logging (err : Err)
  /-- In the deferred `doneCh <- true`, waiting for a receiver. -/
  | sending
  /-- The goroutine has ended. -/
  | finished
deriving DecidableEq, Repr

/-- State of one `handleConn` call. -/
structure State where
  h : HPc
  /-- Variable `s` (line 81); `none` is nil. -/
  s : Option Conn
  /-- Variable `goClose` (line 99). -/
  goClose : Bool
  /-- The goroutine of line 102. -/
  c2u : TPc
  /-- The goroutine of line 115. -/
  u2c : TPc
  events : List Event
deriving DecidableEq, Repr

/-- Program counter of task `t`. -/
def State.tp (st : State) : Task → TPc
  | .clientToUpstream => st.c2u
  | .upstreamToClient => st.u2c

/-- Move task `t` to `pc`. -/
def State.setTp (st : State) (t : Task) (pc : TPc) : State :=
  match t with
  | .clientToUpstream => { st with c2u := pc }
  | .upstreamToClient => { st with u2c := pc }

/-- Append an event. -/
def State.emit (st : State) (e : Event) : State :=
  { st with events := st.events ++ [e] }

/-- The log line of task `t` for a copy error (lines 107, 120). -/
def copyMsg : Task → Err → LogMsg
  | .clientToUpstream, e => .copyFromClient e
  | .upstreamToClient, e => .copyFromUpstream e

/-! ## `handleConn`, lines 68-99 -/

/-- Variables `s`, `err` after the loop and the operations it performed. -/
structure DialOut where
  s : Option Conn
  err : Option Err
  events : List Event
deriving DecidableEq, Repr

/-- Lines 82-90: the `for _, backend := range backends` loop. `k` is the
number of dials made so far, `s` and `err` the variables on entry. -/
def handleConn.dial (p : Proxy) (env : Env) :
    List Backend → Nat → Option Conn → Option Err → DialOut
  | [], _, s, err => ⟨s, err, []⟩
  | backend :: rest, k, _, _ =>
    let addr : Addr := ⟨"127.0.0.1", backend.PublicPort⟩
    match env.DialTimeout k addr p.timeout with
    | .ok conn => ⟨some conn, none, [.dialTimeout addr p.timeout (some conn)]⟩
    | .error e =>
      let out := handleConn.dial p env rest (k + 1) none (some e)
      ⟨out.s, out.err,
        .dialTimeout addr p.timeout none :: .log (.failedConnect e) :: out.events⟩

/-- A handler that ran `events` and returned `err` without starting a task. -/
def State.returnedWith (events : List Event) (s : Option Conn) (err : Option Err) :
    State :=
  ⟨.returned err, s, false, .notStarted, .notStarted, events⟩

/-- Lines 68-99: everything `handleConn` does before the first `go`
statement. The result is either a returned call or a handler standing at
line 102 with `doneCh` made and `goClose = false`. -/
def handleConn.enter (p : Proxy) (env : Env) : State :=
  match env.Get p.port with
  | (_, some err) =>
    State.returnedWith
      [.get p.port, .log (.failedGetBackends err), .closeClient] none (some err)
  | (backends, none) =>
    if backends.length = 0 then
      State.returnedWith
        [.get p.port, .log .failedGetBackendsPort, .closeClient] none
        (some "Failed to get backends port")
    else
      let out := handleConn.dial p env backends 0 none none
      match out.err with
      | some err =>
        State.returnedWith
          (.get p.port :: out.events ++ [.log (.giveup err), .closeClient])
          out.s (some err)
      | none =>
        ⟨.goClient, out.s, false, .notStarted, .notStarted,
          .get p.port :: out.events⟩

/-! ## `handleConn`, lines 101-132 -/

/-- One scheduling choice. -/
inductive Action where
  /-- The handler executes its next statement other than a receive. -/
  | handler
  /-- The `io.Copy` of task `t` returns `err`. -/
  | copyReturn (t : Task) (err : Option Err)
  /-- Task `t` executes its next statement after `io.Copy`. -/
  | task (t : Task)
  /-- The send of task `t` on `doneCh` meets the handler's receive. -/
  | done (t : Task)
deriving DecidableEq, Repr

/-- One step of the session; `none` when the action is not enabled. -/
def handleConn.step (st : State) : Action → Option State
  | .handler =>
    match st.h with
    | .goClient =>
      some (({ st with h := .goUpstream }.setTp .clientToUpstream .copying).emit
        (.go .clientToUpstream))
    | .goUpstream =>
      some (({ st with h := .recvFirst }.setTp .upstreamToClient .copying).emit
        (.go .upstreamToClient))
    | .setGoClose =>
      some ({ st with h := .closeUpstream, goClose := true }.emit .setGoClose)
    | .closeUpstream =>
      match st.s with
      | some s => some ({ st with h := .closeClient }.emit (.closeUpstream s))
      | none => none
    | .closeClient =>
      some ({ st with h := .recvSecond }.emit .closeClient)
    | _ => none
  | .copyReturn t err =>
    match st.tp t with
    | .copying => some ((st.setTp t (.copied err)).emit (.copyReturn t err))
    | _ => none
  | .task t =>
    match st.tp t with
    | .copied none => some (st.setTp t .sending)
    | .copied (some e) =>
      if st.goClose then some ((st.setTp t .sending).emit (.testGoClose t))
      else some ((st.setTp t (.logging e)).emit (.testGoClose t))
    | .logging e => some ((st.setTp t .sending).emit (.log (copyMsg t e)))
    | _ => none
  | .done t =>
    match st.tp t, st.h with
    | .sending, .recvFirst =>
      some (({ st with h := .setGoClose }.setTp t .finished).emit (.done t))
    | .sending, .recvSecond =>
      some (({ st with h := .returned none }.setTp t .finished).emit (.done t))
    | _, _ => none

/-- Run an interleaving. -/
def handleConn.run (st : State) : List Action → Option State
  | [] => some st
  | a :: rest =>
    match handleConn.step st a with
    | some st' => handleConn.run st' rest
    | none => none

/-- States `handleConn` can be in, for proxy `p` under `env`. -/
def handleConn.Reachable (p : Proxy) (env : Env) (st : State) : Prop :=
  ∃ sched, handleConn.run (handleConn.enter p env) sched = some st

/-! ## Observations on an event list -/

/-- Targets of the dials made, in order. -/
def dialed (evs : List Event) : List Addr :=
  evs.filterMap fun e =>
    match e with
    | .dialTimeout addr _ _ => some addr
    | _ => none

/-- Upstream handles obtained from successful dials, in order. -/
def opened (evs : List Event) : List Conn :=
  evs.filterMap fun e =>
    match e with
    | .dialTimeout _ _ (some conn) => some conn
    | _ => none

/-- Ports given to the resolver, in order. -/
def resolved (evs : List Event) : List Nat :=
  evs.filterMap fun e =>
    match e with
    | .get port => some port
    | _ => none

/-- Upstream handles closed, in order. -/
def upstreamClosed (evs : List Event) : List Conn :=
  evs.filterMap fun e =>
    match e with
    | .closeUpstream s => some s
    | _ => none

/-- Tasks started, in order. -/
def started (evs : List Event) : List Task :=
  evs.filterMap fun e =>
    match e with
    | .go t => some t
    | _ => none

/-- Log lines written, in order. -/
def logged (evs : List Event) : List LogMsg :=
  evs.filterMap fun e =>
    match e with
    | .log m => some m
    | _ => none

/-- The loopback target of a candidate (line 84). -/
def target (b : Backend) : Addr := ⟨"127.0.0.1", b.PublicPort⟩

/-! ## The handler's own operations -/

/-- The other relay task. -/
def other : Task → Task
  | .clientToUpstream => .upstreamToClient
  | .upstreamToClient => .clientToUpstream

/-- Operations performed by the handler goroutine in lines 72-131 (a
receive on `doneCh` is recorded as the `done` of the sender). -/
def isHandlerOp : Event → Bool
  | .go _ => true
  | .done _ => true
  | .setGoClose => true
  | .closeUpstream _ => true
  | .closeClient => true
  | _ => false

/-- The handler's operations among `evs`, in order. -/
def handlerOps (evs : List Event) : List Event :=
  evs.filter isHandlerOp

/-- Lines 102-131 as the handler runs them when task `first` is the first
to signal and `s` is the upstream connection. -/
def script (first : Task) (s : Conn) : List Event :=
  [.go .clientToUpstream, .go .upstreamToClient, .done first, .setGoClose,
    .closeUpstream s, .closeClient, .done (other first)]

/-- Coarse position of a task: 0 not started, 1 started and not yet through
its send on `doneCh`, 2 ended. -/
def TPc.phase : TPc → Nat
  | .notStarted => 0
  | .finished => 2
  | _ => 1

/-- Phase of task `t`, given the phases of the two tasks. -/
def phaseOf (t : Task) (c2u u2c : Nat) : Nat :=
  match t with
  | .clientToUpstream => c2u
  | .upstreamToClient => u2c

/-- Control invariant of `handleConn` by handler program counter `h`: the
value of `s` and `goClose`, the handler's operations `ops` so far, and the
phases `c2u`, `u2c` of the two tasks. -/
def CtlCore (h : HPc) (s : Option Conn) (goClose : Bool) (ops : List Event)
    (c2u u2c : Nat) : Prop :=
  match h with
  | .returned (some _) =>
    s = none ∧ ops = [.closeClient] ∧ c2u = 0 ∧ u2c = 0 ∧ goClose = false
  | .goClient =>
    ∃ c, s = some c ∧ ops = [] ∧ c2u = 0 ∧ u2c = 0 ∧ goClose = false
  | .goUpstream =>
    ∃ c, s = some c ∧ ops = [.go .clientToUpstream] ∧ c2u = 1 ∧ u2c = 0 ∧
      goClose = false
  | .recvFirst =>
    ∃ c, s = some c ∧ ops = [.go .clientToUpstream, .go .upstreamToClient] ∧
      c2u = 1 ∧ u2c = 1 ∧ goClose = false
  | .setGoClose =>
    ∃ c t, s = some c ∧ ops = (script t c).take 3 ∧
      phaseOf t c2u u2c = 2 ∧ phaseOf (other t) c2u u2c = 1 ∧ goClose = false
  | .closeUpstream =>
    ∃ c t, s = some c ∧ ops = (script t c).take 4 ∧
      phaseOf t c2u u2c = 2 ∧ phaseOf (other t) c2u u2c = 1 ∧ goClose = true
  | .closeClient =>
    ∃ c t, s = some c ∧ ops = (script t c).take 5 ∧
      phaseOf t c2u u2c = 2 ∧ phaseOf (other t) c2u u2c = 1 ∧ goClose = true
  | .recvSecond =>
    ∃ c t, s = some c ∧ ops = (script t c).take 6 ∧
      phaseOf t c2u u2c = 2 ∧ phaseOf (other t) c2u u2c = 1 ∧ goClose = true
  | .returned none =>
    ∃ c t, s = some c ∧ ops = script t c ∧ c2u = 2 ∧ u2c = 2 ∧ goClose = true

/-- The control invariant on a state. -/
def Ctl (st : State) : Prop :=
  CtlCore st.h st.s st.goClose (handlerOps st.events) st.c2u.phase st.u2c.phase

/-! ## `Start`, lines 39-66 -/

/-- Identity of the `*net.TCPListener` returned by `net.ListenTCP`. -/
abbrev Listener := Nat

/-- The `log.Printf` calls of `Start`, by format string. -/
inductive StartLog where
  /-- Line 44: "Start listen %s:%d". -/
  | startListen (listen : String) (port : Nat)
  /-- Line 53: "Go shutdown %s:%d". -/
  | goShutdown (listen : String) (port : Nat)
deriving DecidableEq, Repr

/-- Operations of `Start`, of its watcher goroutine and of its surroundings,
recorded in execution order. -/
inductive StartEvent where
  /-- Line 40: `net.ResolveTCPAddr("tcp", "listen:port")`. -/
  | resolveTCPAddr (listen : String) (port : Nat)
  /-- A `log.Printf`. -/
  | log (m : StartLog)
  /-- Line 45: `net.ListenTCP("tcp", addr)`. -/
  | listenTCP (addr : Addr)
  /-- Line 50: `go func() ...`, the cancellation watcher. -/
  | goWatcher
  /-- Line 59: `l.AcceptTCP()` returned `(conn, err)`. -/
  | acceptTCP (conn : Option Conn) (err : Option Err)
  /-- Line 63: `conn.SetNoDelay(true)`. -/
  | setNoDelay (conn : Conn)
  /-- Line 64: `go p.handleConn(ctx, conn)`. -/
  | goHandleConn (conn : Conn)
  /-- The supervisor cancelled `ctx`. -/
  | cancel
  /-- Line 54: `l.Close()`. -/
  | closeListener (l : Listener)
  /-- A dispatched `handleConn(ctx, conn)` returned `err`. -/
  | handleConnReturn (conn : Conn) (err : Option Err)
deriving DecidableEq, Repr

/-- Outcomes delivered to one `Start` call before its accept loop. -/
structure StartEnv where
  /-- Result of `net.ResolveTCPAddr` for `listen` and `port`. -/
  ResolveTCPAddr : String → Nat → Except Err Addr
  /-- Result of `net.ListenTCP` for the resolved address. -/
  ListenTCP : Addr → Except Err Listener
  /-- Whether `ctx` is already cancelled when `Start` is called. -/
  cancelled : Bool

/-- Program counter of the goroutine running `Start`. -/
inductive MainPc where
  /-- Line 50: about to start the watcher. -/
  | goWatcher
  /-- Line 59: in `l.AcceptTCP()`. -/
  | accept
  /-- Line 63. -/
  | setNoDelay (conn : Conn)
  /-- Line 64. -/
  | goHandleConn (conn : Conn)
  /-- `Start` has returned `err` (lines 42, 47, 61). -/
  | returned (err : Option Err)
deriving DecidableEq, Repr

/-- Program counter of the watcher goroutine (lines 50-56). -/
inductive WatcherPc where
  /-- The `go` statement has not run. -/
  | notStarted
  /-- Line 52: blocked in `select` on `<-ctx.Done()`. -/
  | selecting
  /-- Line 53. -/
  | logging
  /-- Line 54. -/
  | closing
  /-- The goroutine has ended. -/
  | ended
deriving DecidableEq, Repr

/-- State of one `Start` call. -/
structure StartState where
  main : MainPc
  watcher : WatcherPc
  /-- Variable `l` (line 45); `none` before a successful `ListenTCP`. -/
  l : Option Listener
  /-- Whether `ctx.Done()` is closed. -/
  ctxDone : Bool
  events : List StartEvent
deriving DecidableEq, Repr

/-- Append an event. -/
def StartState.emit (st : StartState) (e : StartEvent) : StartState :=
  { st with events := st.events ++ [e] }

/-- Lines 40-48: resolve and bind. The result is either a returned call or
`Start` standing at line 50 with the listener open. -/
def Start.enter (p : Proxy) (env : StartEnv) : StartState :=
  match env.ResolveTCPAddr p.listen p.port with
  | .error err =>
    ⟨.returned (some err), .notStarted, none, env.cancelled,
      [.resolveTCPAddr p.listen p.port]⟩
  | .ok addr =>
    match env.ListenTCP addr with
    | .error err =>
      ⟨.returned (some err), .notStarted, none, env.cancelled,
        [.resolveTCPAddr p.listen p.port, .log (.startListen p.listen p.port),
          .listenTCP addr]⟩
    | .ok l =>
      ⟨.goWatcher, .notStarted, some l, env.cancelled,
        [.resolveTCPAddr p.listen p.port, .log (.startListen p.listen p.port),
          .listenTCP addr]⟩

/-- Number of returns so far of handlers dispatched for `conn`. -/
def handlerReturns (conn : Conn) (evs : List StartEvent) : Nat :=
  evs.countP fun e =>
    match e with
    | .handleConnReturn c _ => decide (c = conn)
    | _ => false

/-- One scheduling choice of `Start` and its surroundings. -/
inductive StartAction where
  /-- `Start` executes its next statement other than `AcceptTCP`. -/
  | main
  /-- `l.AcceptTCP()` returns. -/
  | accept (r : Except Err Conn)
  /-- The supervisor cancels `ctx`. -/
  | cancel
  /-- The watcher executes its next statement. -/
  | watcher
  /-- A running `handleConn(ctx, conn)` returns `err`. -/
  | handleConnReturn (conn : Conn) (err : Option Err)

/-- One step of `Start`, its watcher and the handlers it dispatched; `none`
when the action is not enabled. -/
def Start.step (p : Proxy) (st : StartState) : StartAction → Option StartState
  | .main =>
    match st.main with
    | .goWatcher =>
      some ({ st with main := .accept, watcher := .selecting }.emit .goWatcher)
    | .setNoDelay conn =>
      some ({ st with main := .goHandleConn conn }.emit (.setNoDelay conn))
    | .goHandleConn conn =>
      some ({ st with main := .accept }.emit (.goHandleConn conn))
    | _ => none
  | .accept r =>
    match st.main, r with
    | .accept, .ok conn =>
      some ({ st with main := .setNoDelay conn }.emit (.acceptTCP (some conn) none))
    | .accept, .error err =>
      some ({ st with main := .returned (some err) }.emit
        (.acceptTCP none (some err)))
    | _, _ => none
  | .cancel =>
    if st.ctxDone then none
    else some ({ st with ctxDone := true }.emit .cancel)
  | .watcher =>
    match st.watcher with
    | .selecting =>
      if st.ctxDone then some { st with watcher := .logging } else none
    | .logging =>
      some ({ st with watcher := .closing }.emit
        (.log (.goShutdown p.listen p.port)))
    | .closing =>
      match st.l with
      | some l => some ({ st with watcher := .ended }.emit (.closeListener l))
      | none => none
    | _ => none
  | .handleConnReturn conn err =>
    if handlerReturns conn st.events < st.events.count (.goHandleConn conn) then
      some (st.emit (.handleConnReturn conn err))
    else none

/-- Run an interleaving of `Start`. -/
def Start.run (p : Proxy) (st : StartState) : List StartAction → Option StartState
  | [] => some st
  | a :: rest =>
    match Start.step p st a with
    | some st' => Start.run p st' rest
    | none => none

/-- States `Start` can be in, for proxy `p` under `env`. -/
def Start.Reachable (p : Proxy) (env : StartEnv) (st : StartState) : Prop :=
  ∃ sched, Start.run p (Start.enter p env) sched = some st

/-- Results `(conn, err)` of the `AcceptTCP` calls, in order. -/
def acceptResults (evs : List StartEvent) : List (Option Conn × Option Err) :=
  evs.filterMap fun e =>
    match e with
    | .acceptTCP conn err => some (conn, err)
    | _ => none

/-- Connections for which a handler was dispatched, in order. -/
def dispatched (evs : List StartEvent) : List Conn :=
  evs.filterMap fun e =>
    match e with
    | .goHandleConn conn => some conn
    | _ => none

/-- Listeners closed, in order. -/
def listenersClosed (evs : List StartEvent) : List Listener :=
  evs.filterMap fun e =>
    match e with
    | .closeListener l => some l
    | _ => none

/-- Results of the handlers that have returned, in order. -/
def handlerResults (evs : List StartEvent) : List (Conn × Option Err) :=
  evs.filterMap fun e =>
    match e with
    | .handleConnReturn conn err => some (conn, err)
    | _ => none

/-- The result `(conn, nil)` of a successful `AcceptTCP`. -/
def accepted (conn : Conn) : Option Conn × Option Err := (some conn, none)

/-- Invariant of the accept loop, by the program counter of `Start`:
the results of the `AcceptTCP` calls against the handlers dispatched. A
return is either a bind failure (watcher never started, nothing accepted or
dispatched) or follows a failed `AcceptTCP` whose error it returns. -/
def AcceptInv (st : StartState) : Prop :=
  match st.main with
  | .goWatcher =>
    acceptResults st.events = [] ∧ dispatched st.events = [] ∧
      st.watcher = .notStarted
  | .accept =>
    st.watcher ≠ .notStarted ∧
      acceptResults st.events = (dispatched st.events).map accepted
  | .setNoDelay conn =>
    st.watcher ≠ .notStarted ∧
      acceptResults st.events = (dispatched st.events ++ [conn]).map accepted
  | .goHandleConn conn =>
    st.watcher ≠ .notStarted ∧
      acceptResults st.events = (dispatched st.events ++ [conn]).map accepted
  | .returned none => False
  | .returned (some err) =>
    (st.watcher ≠ .notStarted ∧
      acceptResults st.events
        = (dispatched st.events).map accepted ++ [(none, some err)]) ∨
    (st.watcher = .notStarted ∧ acceptResults st.events = [] ∧
      dispatched st.events = [])

/-- Invariant of the watcher: the listener is closed by the watcher only,
once, and only after `ctx` was cancelled. -/
def WatcherInv (st : StartState) : Prop :=
  match st.watcher with
  | .notStarted => listenersClosed st.events = []
  | .selecting => listenersClosed st.events = []
  | .logging => listenersClosed st.events = [] ∧ st.ctxDone = true
  | .closing => listenersClosed st.events = [] ∧ st.ctxDone = true
  | .ended => listenersClosed st.events = st.l.toList ∧ st.ctxDone = true

/-! ## Order of relay events -/

/-- The `io.Copy` of task `t` returned an error. -/
def isCopyError (t : Task) : Event → Bool
  | .copyReturn t' (some _) => decide (t' = t)
  | _ => false

/-- Task `t` evaluated `!goClose` (lines 106, 119). -/
def isTest (t : Task) : Event → Bool
  | .testGoClose t' => decide (t' = t)
  | _ => false

/-- Task `t` wrote its copy error to the log (lines 107, 120). -/
def isReport (t : Task) : Event → Bool
  | .log (.copyFromClient _) => decide (t = .clientToUpstream)
  | .log (.copyFromUpstream _) => decide (t = .upstreamToClient)
  | _ => false

/-- The handler set `goClose` (line 128): teardown is initiated. -/
def isSetGoClose : Event → Bool
  | .setGoClose => true
  | _ => false

/-- The handler received a completion signal on `doneCh` (lines 127, 131). -/
def isDone : Event → Bool
  | .done _ => true
  | _ => false

/-- Some event satisfying `p` occurs in `evs` with no event satisfying `q`
at or before it. -/
def before (p q : Event → Bool) (evs : List Event) : Bool :=
  (evs.takeWhile fun e => !q e).any p

/-- Invariant tying the log line of task `t` to the order of its events and
of the handler's write of `goClose`, by the task's program counter `pc`. -/
def RepCore (t : Task) (goClose : Bool) (pc : TPc) (evs : List Event) : Prop :=
  goClose = evs.any isSetGoClose ∧
  match pc with
  | .copied (some _) =>
    evs.any (isCopyError t) = true ∧ evs.any (isTest t) = false ∧
      evs.any (isReport t) = false
  | .logging _ =>
    before (isCopyError t) isSetGoClose evs = true ∧
      before (isTest t) isSetGoClose evs = true ∧ evs.any (isReport t) = false
  | .sending =>
    (evs.any (isReport t) = true → before (isCopyError t) isSetGoClose evs = true) ∧
      (evs.any (isCopyError t) = true → evs.any (isTest t) = true) ∧
      evs.any (isReport t) = before (isTest t) isSetGoClose evs
  | .finished =>
    (evs.any (isReport t) = true → before (isCopyError t) isSetGoClose evs = true) ∧
      (evs.any (isCopyError t) = true → evs.any (isTest t) = true) ∧
      evs.any (isReport t) = before (isTest t) isSetGoClose evs
  | _ =>
    evs.any (isCopyError t) = false ∧ evs.any (isTest t) = false ∧
      evs.any (isReport t) = false

/-- The reporting invariant of task `t` on a state. -/
def Rep (t : Task) (st : State) : Prop :=
  RepCore t st.goClose (st.tp t) st.events

/-! ## Example scenarios -/

/-- A proxy on port 8080 with a dial timeout of 200 (milliseconds). -/
def exProxy : Proxy := ⟨"0.0.0.0", 8080, 200⟩

/-- Three candidates; only the one on port 9002 accepts connections. -/
def exEnvSecond : Env where
  Get := fun _ => ([⟨9001⟩, ⟨9002⟩, ⟨9003⟩], none)
  DialTimeout := fun _ addr _ =>
    if addr.port = 9002 then .ok 42 else .error "i/o timeout"

/-- Two candidates, both refusing, with different failures. -/
def exEnvNone : Env where
  Get := fun _ => ([⟨9001⟩, ⟨9002⟩], none)
  DialTimeout := fun k _ _ =>
    if k = 0 then .error "i/o timeout" else .error "connection refused"

/-- A resolver that knows no backend for the port. -/
def exEnvEmpty : Env where
  Get := fun _ => ([], none)
  DialTimeout := fun _ _ _ => .ok 42

/-- A resolver that fails. -/
def exEnvResolverDown : Env where
  Get := fun _ => ([], some "docker: connection refused")
  DialTimeout := fun _ _ _ => .ok 42

/-- The session that resets on the client side first. -/
def exSchedReset : List Action :=
  [.handler, .handler,
    .copyReturn .clientToUpstream (some "connection reset by peer"),
    .task .clientToUpstream, .task .clientToUpstream, .done .clientToUpstream,
    .handler, .handler, .handler,
    .copyReturn .upstreamToClient (some "use of closed network connection"),
    .task .upstreamToClient, .done .upstreamToClient]

/-- State after `exSchedReset`. -/
def exStateReset : State :=
  ⟨.returned none, some 42, true, .finished, .finished,
    [.get 8080, .dialTimeout ⟨"127.0.0.1", 9001⟩ 200 none,
      .log (.failedConnect "i/o timeout"),
      .dialTimeout ⟨"127.0.0.1", 9002⟩ 200 (some 42),
      .go .clientToUpstream, .go .upstreamToClient,
      .copyReturn .clientToUpstream (some "connection reset by peer"),
      .testGoClose .clientToUpstream,
      .log (.copyFromClient "connection reset by peer"),
      .done .clientToUpstream, .setGoClose, .closeUpstream 42, .closeClient,
      .copyReturn .upstreamToClient (some "use of closed network connection"),
      .testGoClose .upstreamToClient, .done .upstreamToClient]⟩

/-- A session in which the client side fails while the upstream side ends
cleanly; the handler sets `goClose` between the failed copy and the test. -/
def exSchedRace : List Action :=
  [.handler, .handler,
    .copyReturn .clientToUpstream (some "connection reset by peer"),
    .copyReturn .upstreamToClient none,
    .task .upstreamToClient, .done .upstreamToClient,
    .handler, .task .clientToUpstream, .handler, .handler,
    .done .clientToUpstream]

/-- State after `exSchedRace`. -/
def exStateRace : State :=
  ⟨.returned none, some 42, true, .finished, .finished,
    [.get 8080, .dialTimeout ⟨"127.0.0.1", 9001⟩ 200 none,
      .log (.failedConnect "i/o timeout"),
      .dialTimeout ⟨"127.0.0.1", 9002⟩ 200 (some 42),
      .go .clientToUpstream, .go .upstreamToClient,
      .copyReturn .clientToUpstream (some "connection reset by peer"),
      .copyReturn .upstreamToClient none,
      .done .upstreamToClient, .setGoClose,
      .testGoClose .clientToUpstream,
      .closeUpstream 42, .closeClient, .done .clientToUpstream]⟩

/-- A session in which both copies fail before either task signals. -/
def exSchedBoth : List Action :=
  [.handler, .handler,
    .copyReturn .clientToUpstream (some "connection reset by peer"),
    .copyReturn .upstreamToClient (some "broken pipe"),
    .task .clientToUpstream, .task .upstreamToClient,
    .task .clientToUpstream, .task .upstreamToClient,
    .done .clientToUpstream, .handler, .handler, .handler,
    .done .upstreamToClient]

/-- State after `exSchedBoth`. -/
def exStateBoth : State :=
  ⟨.returned none, some 42, true, .finished, .finished,
    [.get 8080, .dialTimeout ⟨"127.0.0.1", 9001⟩ 200 none,
      .log (.failedConnect "i/o timeout"),
      .dialTimeout ⟨"127.0.0.1", 9002⟩ 200 (some 42),
      .go .clientToUpstream, .go .upstreamToClient,
      .copyReturn .clientToUpstream (some "connection reset by peer"),
      .copyReturn .upstreamToClient (some "broken pipe"),
      .testGoClose .clientToUpstream, .testGoClose .upstreamToClient,
      .log (.copyFromClient "connection reset by peer"),
      .log (.copyFromUpstream "broken pipe"),
      .done .clientToUpstream, .setGoClose, .closeUpstream 42, .closeClient,
      .done .upstreamToClient]⟩

/-- Resolve and bind succeed; `ctx` is not cancelled at the call. -/
def exStartEnv : StartEnv where
  ResolveTCPAddr := fun listen port => .ok ⟨listen, port⟩
  ListenTCP := fun _ => .ok 3
  cancelled := false

/-- The port is taken. -/
def exStartEnvBusy : StartEnv where
  ResolveTCPAddr := fun listen port => .ok ⟨listen, port⟩
  ListenTCP := fun _ => .error "bind: address already in use"
  cancelled := false

/-- Two connections, then cancellation; the handler of the first fails. -/
def exStartSchedA : List StartAction :=
  [.main, .accept (.ok 10), .main, .main, .accept (.ok 11),
    .handleConnReturn 10 (some "Failed to get backends port"), .main, .main,
    .cancel, .watcher, .watcher, .watcher,
    .accept (.error "use of closed network connection")]

/-- State after `exStartSchedA`. -/
def exStartStateA : StartState :=
  ⟨.returned (some "use of closed network connection"), .ended, some 3, true,
    [.resolveTCPAddr "0.0.0.0" 8080, .log (.startListen "0.0.0.0" 8080),
      .listenTCP ⟨"0.0.0.0", 8080⟩, .goWatcher,
      .acceptTCP (some 10) none, .setNoDelay 10, .goHandleConn 10,
      .acceptTCP (some 11) none,
      .handleConnReturn 10 (some "Failed to get backends port"),
      .setNoDelay 11, .goHandleConn 11, .cancel,
      .log (.goShutdown "0.0.0.0" 8080), .closeListener 3,
      .acceptTCP none (some "use of closed network connection")]⟩

/-- The same two connections; the first handler succeeds, the second gives
up dialing. -/
def exStartSchedB : List StartAction :=
  [.main, .accept (.ok 10), .main, .main, .handleConnReturn 10 none,
    .accept (.ok 11), .main, .main, .handleConnReturn 11 (some "i/o timeout"),
    .cancel, .watcher, .watcher, .watcher,
    .accept (.error "use of closed network connection")]

/-- State after `exStartSchedB`. -/
def exStartStateB : StartState :=
  ⟨.returned (some "use of closed network connection"), .ended, some 3, true,
    [.resolveTCPAddr "0.0.0.0" 8080, .log (.startListen "0.0.0.0" 8080),
      .listenTCP ⟨"0.0.0.0", 8080⟩, .goWatcher,
      .acceptTCP (some 10) none, .setNoDelay 10, .goHandleConn 10,
      .handleConnReturn 10 none,
      .acceptTCP (some 11) none, .setNoDelay 11, .goHandleConn 11,
      .handleConnReturn 11 (some "i/o timeout"), .cancel,
      .log (.goShutdown "0.0.0.0" 8080), .closeListener 3,
      .acceptTCP none (some "use of closed network connection")]⟩

/-- The first `AcceptTCP` fails while `ctx` is not cancelled. -/
def exStartSchedLeak : List StartAction :=
  [.main, .accept (.error "accept tcp: too many open files")]

/-- State after `exStartSchedLeak`. -/
def exStartStateLeak : StartState :=
  ⟨.returned (some "accept tcp: too many open files"), .selecting, some 3, false,
    [.resolveTCPAddr "0.0.0.0" 8080, .log (.startListen "0.0.0.0" 8080),
      .listenTCP ⟨"0.0.0.0", 8080⟩, .goWatcher,
      .acceptTCP none (some "accept tcp: too many open files")]⟩

/-! ## Lemmas on the dial loop -/

theorem dialed_cons_dial (addr : Addr) (t : Nat) (r : Option Conn)
    (evs : List Event) :
    dialed (.dialTimeout addr t r :: evs) = addr :: dialed evs := by
  simp [dialed, List.filterMap_cons]

theorem dialed_cons_log (m : LogMsg) (evs : List Event) :
    dialed (.log m :: evs) = dialed evs := by
  simp [dialed, List.filterMap_cons]

theorem dial_cons_ok (p : Proxy) (env : Env) (b : Backend) (rest : List Backend)
    (k : Nat) (s : Option Conn) (err : Option Err) (c : Conn)
    (h : env.DialTimeout k (target b) p.timeout = .ok c) :
    handleConn.dial p env (b :: rest) k s err
      = ⟨some c, none, [.dialTimeout (target b) p.timeout (some c)]⟩ := by
  simp only [target] at h
  simp only [handleConn.dial, h, target]

theorem dial_cons_error (p : Proxy) (env : Env) (b : Backend) (rest : List Backend)
    (k : Nat) (s : Option Conn) (err : Option Err) (e : Err)
    (h : env.DialTimeout k (target b) p.timeout = .error e) :
    handleConn.dial p env (b :: rest) k s err
      = ⟨(handleConn.dial p env rest (k + 1) none (some e)).s,
          (handleConn.dial p env rest (k + 1) none (some e)).err,
          .dialTimeout (target b) p.timeout none :: .log (.failedConnect e) ::
            (handleConn.dial p env rest (k + 1) none (some e)).events⟩ := by
  simp only [target] at h
  simp only [handleConn.dial, h, target]

/-- Operations of the loop are dials and "Failed to connect backend" lines. -/
theorem dial_events_shape (p : Proxy) (env : Env) (bs : List Backend) :
    ∀ (k : Nat) (s : Option Conn) (err : Option Err),
      ∀ e ∈ (handleConn.dial p env bs k s err).events,
        (∃ a t r, e = .dialTimeout a t r) ∨
          (∃ x, e = .log (.failedConnect x)) := by
  induction bs with
  | nil => intro k s err e he; simp [handleConn.dial] at he
  | cons b rest ih =>
    intro k s err e he
    simp only [handleConn.dial] at he
    split at he
    · simp at he
      exact Or.inl ⟨_, _, _, he⟩
    · simp only [List.mem_cons] at he
      rcases he with he | he | he
      · exact Or.inl ⟨_, _, _, he⟩
      · exact Or.inr ⟨_, he⟩
      · exact ih _ _ _ e he

/-- The loop stops at the first candidate whose dial succeeds. -/
theorem dial_first_ok (p : Proxy) (env : Env) (bs : List Backend) :
    ∀ (k i : Nat) (b : Backend) (c : Conn) (s : Option Conn) (err : Option Err),
      bs[i]? = some b →
      (∀ j b', j < i → bs[j]? = some b' →
        ∃ e, env.DialTimeout (k + j) (target b') p.timeout = .error e) →
      env.DialTimeout (k + i) (target b) p.timeout = .ok c →
      (handleConn.dial p env bs k s err).s = some c ∧
      (handleConn.dial p env bs k s err).err = none ∧
      dialed (handleConn.dial p env bs k s err).events
        = (bs.take (i + 1)).map target := by
  induction bs with
  | nil => intro k i b c s err hb; simp at hb
  | cons b0 rest ih =>
    intro k i b c s err hb hfail hok
    cases i with
    | zero =>
      simp at hb
      subst hb
      simp only [Nat.add_zero, target] at hok
      simp [handleConn.dial, hok, dialed, target]
    | succ i =>
      simp at hb
      obtain ⟨e, he⟩ := hfail 0 b0 (Nat.succ_pos i) (by simp)
      simp only [Nat.add_zero, target] at he
      have hfail' : ∀ j b', j < i → rest[j]? = some b' →
          ∃ e, env.DialTimeout (k + 1 + j) (target b') p.timeout = .error e := by
        intro j b' hj hb'
        have := hfail (j + 1) b' (Nat.succ_lt_succ hj) (by simpa using hb')
        simpa [Nat.add_assoc, Nat.add_comm 1 j] using this
      have hok' : env.DialTimeout (k + 1 + i) (target b) p.timeout = .ok c := by
        simpa [Nat.add_assoc, Nat.add_comm 1 i] using hok
      obtain ⟨h1, h2, h3⟩ := ih (k + 1) i b c none (some e) hb hfail' hok'
      simp only [handleConn.dial, he]
      refine ⟨h1, h2, ?_⟩
      rw [dialed_cons_dial, dialed_cons_log, h3]
      simp [target]

/-! ## Lemmas on interleavings -/

theorem run_append (st : State) (xs ys : List Action) :
    handleConn.run st (xs ++ ys)
      = (handleConn.run st xs).bind fun st' => handleConn.run st' ys := by
  induction xs generalizing st with
  | nil => simp [handleConn.run]
  | cons a xs ih =>
    simp only [List.cons_append, handleConn.run]
    cases handleConn.step st a with
    | none => simp
    | some st' => simpa using ih st'

/-- Induction over the states of an interleaving. -/
theorem run_induction (P : State → Prop) (st0 : State) (h0 : P st0)
    (hstep : ∀ st a st', P st → handleConn.step st a = some st' → P st') :
    ∀ sched st, handleConn.run st0 sched = some st → P st := by
  intro sched
  induction sched generalizing st0 with
  | nil => intro st h; simp [handleConn.run] at h; subst h; exact h0
  | cons a rest ih =>
    intro st h
    simp only [handleConn.run] at h
    cases hs : handleConn.step st0 a with
    | none => simp [hs] at h
    | some st1 =>
      simp only [hs] at h
      exact ih st1 (hstep st0 a st1 h0 hs) st h

/-- A step appends at most one event, and that event is neither a resolver
call nor a dial; it leaves the variable `s` alone. -/
theorem step_frame (st st' : State) (a : Action)
    (h : handleConn.step st a = some st') :
    st'.s = st.s ∧ dialed st'.events = dialed st.events ∧
      resolved st'.events = resolved st.events ∧
      opened st'.events = opened st.events := by
  cases a with
  | handler =>
    simp only [handleConn.step] at h
    split at h <;> try (simp at h)
    all_goals first
      | (subst h; simp [State.emit, State.setTp, dialed, resolved, opened])
      | (split at h <;> simp at h; subst h
         simp [State.emit, State.setTp, dialed, resolved, opened])
  | copyReturn t err =>
    simp only [handleConn.step] at h
    split at h <;> simp at h
    subst h
    cases t <;> simp [State.emit, State.setTp, dialed, resolved, opened]
  | task t =>
    simp only [handleConn.step] at h
    split at h <;> try (simp at h)
    · subst h; cases t <;> simp [State.setTp]
    · split at h <;> simp at h <;> subst h <;>
        cases t <;> simp [State.emit, State.setTp, dialed, resolved, opened]
    · subst h; cases t <;> simp [State.emit, State.setTp, dialed, resolved, opened]
  | done t =>
    simp only [handleConn.step] at h
    split at h <;> simp at h <;> subst h <;>
      cases t <;> simp [State.emit, State.setTp, dialed, resolved, opened]

/-- No action is enabled once the call has returned with no task started. -/
theorem step_returned (st : State) (a : Action) (r : Option Err)
    (hh : st.h = .returned r) (h1 : st.c2u = .notStarted)
    (h2 : st.u2c = .notStarted) : handleConn.step st a = none := by
  cases a with
  | handler => simp [handleConn.step, hh]
  | copyReturn t err => cases t <;> simp [handleConn.step, State.tp, h1, h2]
  | task t => cases t <;> simp [handleConn.step, State.tp, h1, h2]
  | done t => cases t <;> simp [handleConn.step, State.tp, h1, h2]

theorem run_returned (st st' : State) (sched : List Action) (r : Option Err)
    (hh : st.h = .returned r) (h1 : st.c2u = .notStarted)
    (h2 : st.u2c = .notStarted) (h : handleConn.run st sched = some st') :
    st' = st := by
  cases sched with
  | nil => simp [handleConn.run] at h; exact h.symm
  | cons a rest =>
    simp [handleConn.run, step_returned st a r hh h1 h2] at h

theorem run_frame (st0 : State) :
    ∀ sched st, handleConn.run st0 sched = some st →
      st.s = st0.s ∧ dialed st.events = dialed st0.events ∧
        resolved st.events = resolved st0.events ∧
        opened st.events = opened st0.events := by
  apply run_induction
  · exact ⟨rfl, rfl, rfl, rfl⟩
  · intro st a st' ih hs
    obtain ⟨a1, a2, a3, a4⟩ := step_frame st st' a hs
    exact ⟨a1.trans ih.1, a2.trans ih.2.1, a3.trans ih.2.2.1, a4.trans ih.2.2.2⟩

/-- The loop's operations contain no resolver call, close or `go`. -/
theorem dial_events_observed (p : Proxy) (env : Env) (bs : List Backend)
    (k : Nat) (s : Option Conn) (err : Option Err) :
    resolved (handleConn.dial p env bs k s err).events = [] ∧
    started (handleConn.dial p env bs k s err).events = [] ∧
    upstreamClosed (handleConn.dial p env bs k s err).events = [] ∧
    (handleConn.dial p env bs k s err).events.count .closeClient = 0 := by
  have hshape := dial_events_shape p env bs k s err
  refine ⟨?_, ?_, ?_, ?_⟩
  · simp only [resolved, List.filterMap_eq_nil_iff]
    intro e he
    rcases hshape e he with ⟨a, t, r, rfl⟩ | ⟨x, rfl⟩ <;> rfl
  · simp only [started, List.filterMap_eq_nil_iff]
    intro e he
    rcases hshape e he with ⟨a, t, r, rfl⟩ | ⟨x, rfl⟩ <;> rfl
  · simp only [upstreamClosed, List.filterMap_eq_nil_iff]
    intro e he
    rcases hshape e he with ⟨a, t, r, rfl⟩ | ⟨x, rfl⟩ <;> rfl
  · rw [List.count_eq_zero]
    intro he
    rcases hshape _ he with ⟨a, t, r, h⟩ | ⟨x, h⟩ <;> simp at h

/-- When every dial fails the loop tries every candidate and ends with
`s` nil and `err` the failure of the last one. -/
theorem dial_all_fail (p : Proxy) (env : Env) (bs : List Backend) :
    ∀ (k : Nat) (bLast : Backend) (eLast : Err) (s : Option Conn)
      (err : Option Err),
      bs.getLast? = some bLast →
      (∀ j b', bs[j]? = some b' →
        ∃ e, env.DialTimeout (k + j) (target b') p.timeout = .error e) →
      env.DialTimeout (k + (bs.length - 1)) (target bLast) p.timeout
        = .error eLast →
      (handleConn.dial p env bs k s err).s = none ∧
      (handleConn.dial p env bs k s err).err = some eLast ∧
      dialed (handleConn.dial p env bs k s err).events = bs.map target := by
  induction bs with
  | nil => intro k bLast eLast s err h; simp at h
  | cons b0 rest ih =>
    intro k bLast eLast s err hlast hfail hlastErr
    obtain ⟨e, he⟩ := hfail 0 b0 (by simp)
    simp only [Nat.add_zero] at he
    rw [dial_cons_error p env b0 rest k s err e he]
    cases rest with
    | nil =>
      simp at hlast
      subst hlast
      simp only [List.length_cons, List.length_nil, Nat.zero_add, Nat.sub_self,
        Nat.add_zero] at hlastErr
      rw [he] at hlastErr
      injection hlastErr with hee
      subst hee
      simp [handleConn.dial, dialed]
    | cons b1 r =>
      have hlast' : (b1 :: r).getLast? = some bLast := by
        simpa using hlast
      have hfail' : ∀ j b', (b1 :: r)[j]? = some b' →
          ∃ e, env.DialTimeout (k + 1 + j) (target b') p.timeout = .error e := by
        intro j b' hb'
        have := hfail (j + 1) b' (by simpa using hb')
        simpa [Nat.add_assoc, Nat.add_comm 1 j] using this
      have hlastErr' : env.DialTimeout (k + 1 + ((b1 :: r).length - 1))
          (target bLast) p.timeout = .error eLast := by
        have : k + 1 + ((b1 :: r).length - 1) = k + ((b0 :: b1 :: r).length - 1) := by
          simp only [List.length_cons]; omega
        rw [this]; exact hlastErr
      obtain ⟨h1, h2, h3⟩ := ih (k + 1) bLast eLast none (some e) hlast' hfail' hlastErr'
      refine ⟨h1, h2, ?_⟩
      show dialed (_ :: _ :: _) = _
      rw [dialed_cons_dial, dialed_cons_log, h3]
      simp

/-! ## Lemmas on `handleConn.enter` -/

theorem enter_get_error (p : Proxy) (env : Env) (bs : List Backend) (e : Err)
    (hget : env.Get p.port = (bs, some e)) :
    handleConn.enter p env = State.returnedWith
      [.get p.port, .log (.failedGetBackends e), .closeClient] none (some e) := by
  simp [handleConn.enter, hget]

theorem enter_empty (p : Proxy) (env : Env) (hget : env.Get p.port = ([], none)) :
    handleConn.enter p env = State.returnedWith
      [.get p.port, .log .failedGetBackendsPort, .closeClient] none
      (some "Failed to get backends port") := by
  simp [handleConn.enter, hget]

theorem enter_giveup (p : Proxy) (env : Env) (bs : List Backend) (e : Err)
    (hget : env.Get p.port = (bs, none)) (hne : bs ≠ [])
    (herr : (handleConn.dial p env bs 0 none none).err = some e) :
    handleConn.enter p env = State.returnedWith
      (.get p.port :: (handleConn.dial p env bs 0 none none).events
        ++ [.log (.giveup e), .closeClient])
      (handleConn.dial p env bs 0 none none).s (some e) := by
  simp [handleConn.enter, hget, hne, herr]

theorem enter_session (p : Proxy) (env : Env) (bs : List Backend)
    (hget : env.Get p.port = (bs, none)) (hne : bs ≠ [])
    (herr : (handleConn.dial p env bs 0 none none).err = none) :
    handleConn.enter p env =
      ⟨.goClient, (handleConn.dial p env bs 0 none none).s, false, .notStarted,
        .notStarted, .get p.port :: (handleConn.dial p env bs 0 none none).events⟩ := by
  simp [handleConn.enter, hget, hne, herr]

/-- The four ways `handleConn` leaves its single-threaded opening. -/
theorem enter_cases (p : Proxy) (env : Env) :
    (∃ bs e, env.Get p.port = (bs, some e)) ∨
    env.Get p.port = ([], none) ∨
    (∃ bs e, env.Get p.port = (bs, none) ∧ bs ≠ [] ∧
      (handleConn.dial p env bs 0 none none).err = some e) ∨
    (∃ bs, env.Get p.port = (bs, none) ∧ bs ≠ [] ∧
      (handleConn.dial p env bs 0 none none).err = none) := by
  rcases hg : env.Get p.port with ⟨bs, _ | e⟩
  · cases bs with
    | nil => exact Or.inr (Or.inl rfl)
    | cons b rest =>
      rcases hd : (handleConn.dial p env (b :: rest) 0 none none).err with _ | e
      · exact Or.inr (Or.inr (Or.inr ⟨_, rfl, by simp, hd⟩))
      · exact Or.inr (Or.inr (Or.inl ⟨_, e, rfl, by simp, hd⟩))
  · exact Or.inl ⟨bs, e, rfl⟩

/-- The resolver is called once, first, with the configured port. -/
theorem enter_resolved (p : Proxy) (env : Env) :
    resolved (handleConn.enter p env).events = [p.port] := by
  rcases enter_cases p env with ⟨bs, e, hg⟩ | hg | ⟨bs, e, hg, hne, hd⟩ | ⟨bs, hg, hne, hd⟩
  · rw [enter_get_error p env bs e hg]; rfl
  · rw [enter_empty p env hg]; rfl
  · rw [enter_giveup p env bs e hg hne hd]
    have hobs := (dial_events_observed p env bs 0 none none).1
    simp only [resolved] at hobs ⊢
    simp [State.returnedWith, List.filterMap_cons, hobs]
  · rw [enter_session p env bs hg hne hd]
    have hobs := (dial_events_observed p env bs 0 none none).1
    simp only [resolved] at hobs ⊢
    simp [List.filterMap_cons, hobs]

/-! ## The control invariant -/

theorem handlerOps_snoc (evs : List Event) (e : Event) :
    handlerOps (evs ++ [e])
      = if isHandlerOp e then handlerOps evs ++ [e] else handlerOps evs := by
  simp only [handlerOps, List.filter_append, List.filter_cons, List.filter_nil]
  split <;> simp

theorem ctl_congr (st st' : State) (h1 : st'.h = st.h) (h2 : st'.s = st.s)
    (h3 : st'.goClose = st.goClose)
    (h4 : handlerOps st'.events = handlerOps st.events)
    (h5 : st'.c2u.phase = st.c2u.phase) (h6 : st'.u2c.phase = st.u2c.phase)
    (hinv : Ctl st) : Ctl st' := by
  unfold Ctl at *
  rw [h1, h2, h3, h4, h5, h6]
  exact hinv

theorem ctl_step_copyReturn (st st' : State) (t : Task) (err : Option Err)
    (hinv : Ctl st)
    (h : handleConn.step st (.copyReturn t err) = some st') : Ctl st' := by
  simp only [handleConn.step] at h
  split at h <;> simp at h
  rename_i hc
  subst h
  apply ctl_congr st _ _ _ _ _ _ _ hinv <;>
    cases t <;> simp_all [State.emit, State.setTp, State.tp, handlerOps_snoc, isHandlerOp, TPc.phase]

theorem ctl_step_task (st st' : State) (t : Task) 
    (hinv : Ctl st)
    (h : handleConn.step st (.task t) = some st') : Ctl st' := by
  simp only [handleConn.step] at h
  split at h <;> try (simp at h)
  · rename_i hc
    subst h
    apply ctl_congr st _ _ _ _ _ _ _ hinv <;>
      cases t <;> simp_all [State.emit, State.setTp, State.tp, handlerOps_snoc, isHandlerOp, TPc.phase]
  · rename_i hc
    split at h <;> simp at h <;> subst h <;>
    apply ctl_congr st _ _ _ _ _ _ _ hinv <;>
      cases t <;> simp_all [State.emit, State.setTp, State.tp, handlerOps_snoc, isHandlerOp, TPc.phase]
  · rename_i hc
    subst h
    apply ctl_congr st _ _ _ _ _ _ _ hinv <;>
      cases t <;> simp_all [State.emit, State.setTp, State.tp, handlerOps_snoc, isHandlerOp, TPc.phase]

theorem ctl_step_handler (st st' : State)
    (hinv : Ctl st)
    (h : handleConn.step st .handler = some st') : Ctl st' := by
  obtain ⟨hp, s, g, c2u, u2c, evs⟩ := st
  simp only [handleConn.step] at h
  unfold Ctl at *
  cases hp <;> simp at h
  · subst h
    simp_all [CtlCore, State.emit, State.setTp, handlerOps_snoc, isHandlerOp, TPc.phase]
  · subst h
    simp_all [CtlCore, State.emit, State.setTp, handlerOps_snoc, isHandlerOp, TPc.phase]
  · subst h
    simp only [CtlCore] at hinv
    obtain ⟨c, t, h1, h2, h3, h4, h5⟩ := hinv
    refine ⟨c, t, h1, ?_, h3, h4, rfl⟩
    simp [State.emit, handlerOps_snoc, isHandlerOp, h2, script]
  · simp only [CtlCore] at hinv
    obtain ⟨c, t, h1, h2, h3, h4, h5⟩ := hinv
    have h1' : s = some c := h1
    subst h1'
    simp at h
    subst h
    refine ⟨c, t, rfl, ?_, h3, h4, h5⟩
    simp [State.emit, handlerOps_snoc, isHandlerOp, h2, script]
  · subst h
    simp only [CtlCore] at hinv
    obtain ⟨c, t, h1, h2, h3, h4, h5⟩ := hinv
    refine ⟨c, t, h1, ?_, h3, h4, h5⟩
    simp [State.emit, handlerOps_snoc, isHandlerOp, h2, script]

theorem ctl_step_done (st st' : State) (t : Task)
    (hinv : Ctl st)
    (h : handleConn.step st (.done t) = some st') : Ctl st' := by
  obtain ⟨hp, s, g, c2u, u2c, evs⟩ := st
  simp only [handleConn.step] at h
  unfold Ctl at *
  split at h <;> simp at h
  · rename_i hs
    subst h
    simp only [CtlCore] at hinv
    obtain ⟨c, h1, h2, h3, h4, h5⟩ := hinv
    cases t
    · refine ⟨c, .clientToUpstream, h1, ?_, rfl, h4, h5⟩
      simp [State.emit, State.setTp, handlerOps_snoc, isHandlerOp, h2, script]
    · refine ⟨c, .upstreamToClient, h1, ?_, rfl, h3, h5⟩
      simp [State.emit, State.setTp, handlerOps_snoc, isHandlerOp, h2, script]
  · rename_i hs
    subst h
    simp only [CtlCore] at hinv
    obtain ⟨c, t1, h1, h2, h3, h4, h5⟩ := hinv
    cases t <;> cases t1
    · have hs' : c2u = .sending := hs
      subst hs'
      simp [phaseOf, TPc.phase] at h3
    · have h3' : u2c.phase = 2 := h3
      refine ⟨c, .upstreamToClient, h1, ?_, rfl, h3', h5⟩
      simp [State.emit, State.setTp, handlerOps_snoc, isHandlerOp, h2, script, other]
    · have h3' : c2u.phase = 2 := h3
      refine ⟨c, .clientToUpstream, h1, ?_, h3', rfl, h5⟩
      simp [State.emit, State.setTp, handlerOps_snoc, isHandlerOp, h2, script, other]
    · have hs' : u2c = .sending := hs
      subst hs'
      simp [phaseOf, TPc.phase] at h3

theorem ctl_step (st st' : State) (a : Action) (hinv : Ctl st)
    (h : handleConn.step st a = some st') : Ctl st' := by
  cases a with
  | handler => exact ctl_step_handler st st' hinv h
  | copyReturn t err => exact ctl_step_copyReturn st st' t err hinv h
  | task t => exact ctl_step_task st st' t hinv h
  | done t => exact ctl_step_done st st' t hinv h


/-- A step never makes the call return an error. -/
theorem step_not_returned_error (st st' : State) (a : Action)
    (hinv : ∀ e, st.h ≠ .returned (some e))
    (h : handleConn.step st a = some st') : ∀ e, st'.h ≠ .returned (some e) := by
  intro e
  cases a with
  | handler =>
    simp only [handleConn.step] at h
    split at h <;> try (simp at h)
    all_goals first
      | (subst h; simp [State.emit, State.setTp])
      | (split at h <;> simp at h; subst h; simp [State.emit])
  | copyReturn t err =>
    simp only [handleConn.step] at h
    split at h <;> simp at h
    subst h
    cases t <;> simpa [State.emit, State.setTp] using hinv e
  | task t =>
    simp only [handleConn.step] at h
    split at h <;> try (simp at h)
    · subst h; cases t <;> simpa [State.setTp] using hinv e
    · split at h <;> simp at h <;> subst h <;>
        cases t <;> simpa [State.emit, State.setTp] using hinv e
    · subst h; cases t <;> simpa [State.emit, State.setTp] using hinv e
  | done t =>
    simp only [handleConn.step] at h
    split at h <;> simp at h <;> subst h <;>
      cases t <;> simp [State.emit, State.setTp]

/-- After at least one candidate, `err` is nil exactly when `s` is not. -/
theorem dial_s_of_err (p : Proxy) (env : Env) (bs : List Backend) :
    ∀ (k : Nat) (s : Option Conn) (err : Option Err), bs ≠ [] →
      ((handleConn.dial p env bs k s err).err = none →
        ∃ c, (handleConn.dial p env bs k s err).s = some c) ∧
      (∀ e, (handleConn.dial p env bs k s err).err = some e →
        (handleConn.dial p env bs k s err).s = none) := by
  induction bs with
  | nil => intro k s err h; exact absurd rfl h
  | cons b rest ih =>
    intro k s err _
    rcases hd : env.DialTimeout k (target b) p.timeout with e | c
    · rw [dial_cons_error p env b rest k s err e hd]
      cases rest with
      | nil => simp [handleConn.dial]
      | cons b1 r => exact ih (k + 1) none (some e) (by simp)
    · rw [dial_cons_ok p env b rest k s err c hd]
      simp

/-- The handles obtained in the loop are: the final `s`, if any. -/
theorem dial_opened (p : Proxy) (env : Env) (bs : List Backend) :
    ∀ (k : Nat) (err : Option Err),
      opened (handleConn.dial p env bs k none err).events
        = (handleConn.dial p env bs k none err).s.toList := by
  induction bs with
  | nil => intro k err; simp [handleConn.dial, opened]
  | cons b rest ih =>
    intro k err
    rcases hd : env.DialTimeout k (target b) p.timeout with e | c
    · rw [dial_cons_error p env b rest k none err e hd]
      have := ih (k + 1) (some e)
      simp only [opened] at this ⊢
      simp [List.filterMap_cons, this]
    · rw [dial_cons_ok p env b rest k none err c hd]
      simp [opened]

theorem dial_handlerOps (p : Proxy) (env : Env) (bs : List Backend)
    (k : Nat) (s : Option Conn) (err : Option Err) :
    handlerOps (handleConn.dial p env bs k s err).events = [] := by
  simp only [handlerOps, List.filter_eq_nil_iff]
  intro e he
  rcases dial_events_shape p env bs k s err e he with ⟨a, t, r, rfl⟩ | ⟨x, rfl⟩ <;>
    simp [isHandlerOp]

/-- The control invariant holds when the single-threaded opening ends. -/
theorem ctl_enter (p : Proxy) (env : Env) : Ctl (handleConn.enter p env) := by
  rcases enter_cases p env with ⟨bs, e, hg⟩ | hg | ⟨bs, e, hg, hne, hd⟩ | ⟨bs, hg, hne, hd⟩
  · rw [enter_get_error p env bs e hg]
    simp [Ctl, CtlCore, State.returnedWith, handlerOps, isHandlerOp, TPc.phase]
  · rw [enter_empty p env hg]
    simp [Ctl, CtlCore, State.returnedWith, handlerOps, isHandlerOp, TPc.phase]
  · rw [enter_giveup p env bs e hg hne hd]
    have hops := dial_handlerOps p env bs 0 none none
    simp only [handlerOps] at hops
    have hs := (dial_s_of_err p env bs 0 none none hne).2 e hd
    simp [Ctl, CtlCore, State.returnedWith, handlerOps, isHandlerOp, TPc.phase,
      List.filter_cons, hops, hs]
  · rw [enter_session p env bs hg hne hd]
    have hops := dial_handlerOps p env bs 0 none none
    simp only [handlerOps] at hops
    obtain ⟨c, hc⟩ := (dial_s_of_err p env bs 0 none none hne).1 hd
    simp [Ctl, CtlCore, handlerOps, isHandlerOp, TPc.phase, List.filter_cons, hops, hc]

theorem ctl_reachable (p : Proxy) (env : Env) (st : State)
    (h : handleConn.Reachable p env st) : Ctl st := by
  obtain ⟨sched, hrun⟩ := h
  exact run_induction Ctl _ (ctl_enter p env)
    (fun st a st' hinv hs => ctl_step st st' a hinv hs) sched st hrun

theorem phase_eq_two (pc : TPc) (h : pc.phase = 2) : pc = .finished := by
  cases pc <;> simp [TPc.phase] at h ⊢

theorem phase_eq_zero (pc : TPc) (h : pc.phase = 0) : pc = .notStarted := by
  cases pc <;> simp [TPc.phase] at h ⊢

/-! ## The reporting invariant -/

theorem before_snoc (p q : Event → Bool) (evs : List Event) (e : Event) :
    before p q (evs ++ [e])
      = (before p q evs || (!evs.any q && !q e && p e)) := by
  induction evs with
  | nil =>
    simp only [before, List.nil_append, List.takeWhile_cons, List.takeWhile_nil]
    cases q e <;> simp
  | cons a rest ih =>
    simp only [before] at ih ⊢
    simp only [List.cons_append, List.takeWhile_cons]
    cases hq : q a
    · simp [ih, hq, Bool.or_assoc]
    · simp [hq]

theorem before_le_any (p q : Event → Bool) (evs : List Event)
    (h : evs.any p = false) : before p q evs = false := by
  induction evs with
  | nil => rfl
  | cons a rest ih =>
    simp only [List.any_cons, Bool.or_eq_false_iff] at h
    simp only [before, List.takeWhile_cons]
    cases q a
    · simp only [Bool.not_false, ite_true, List.any_cons, h.1, Bool.false_or]
      exact ih h.2
    · simp

theorem before_eq_any (p q : Event → Bool) (evs : List Event)
    (h : evs.any q = false) : before p q evs = evs.any p := by
  induction evs with
  | nil => rfl
  | cons a rest ih =>
    simp only [List.any_cons, Bool.or_eq_false_iff] at h
    simp only [before, List.takeWhile_cons, h.1]
    simp only [Bool.not_false, ite_true, List.any_cons]
    rw [← ih h.2]
    rfl

theorem any_of_before (p q : Event → Bool) (evs : List Event)
    (h : before p q evs = true) : evs.any p = true := by
  cases hany : evs.any p
  · rw [before_le_any p q evs hany] at h; cases h
  · rfl

/-- Two disjoint kinds of event cannot each precede the other. -/
theorem before_antisymm (p q : Event → Bool) (evs : List Event)
    (hpq : ∀ e, p e = true → q e = false)
    (h1 : before p q evs = true) (h2 : before q p evs = true) : False := by
  induction evs with
  | nil => simp [before] at h1
  | cons a rest ih =>
    simp only [before, List.takeWhile_cons] at h1 h2 ih
    cases hp : p a <;> cases hq : q a
    · simp only [hp, hq, Bool.not_false, ite_true, List.any_cons, Bool.false_or] at h1 h2
      exact ih h1 h2
    · simp [hq] at h1
    · simp [hp] at h2
    · rw [hpq a hp] at hq; cases hq

/-- An event of another kind leaves the reporting invariant as it is. -/
theorem rep_irrelevant (t : Task) (g : Bool) (pc : TPc) (evs : List Event)
    (e : Event) (h1 : isCopyError t e = false) (h2 : isTest t e = false)
    (h3 : isReport t e = false) (h4 : isSetGoClose e = false)
    (hinv : RepCore t g pc evs) : RepCore t g pc (evs ++ [e]) := by
  obtain ⟨hg, hpc⟩ := hinv
  refine ⟨by simp [hg, h4], ?_⟩
  cases pc with
  | copied err =>
    cases err <;> simpa [before_snoc, h1, h2, h3, h4] using hpc
  | _ => simpa [before_snoc, h1, h2, h3, h4] using hpc

theorem rep_setGoClose (t : Task) (g : Bool) (pc : TPc) (evs : List Event)
    (hinv : RepCore t g pc evs) : RepCore t true pc (evs ++ [.setGoClose]) := by
  obtain ⟨hg, hpc⟩ := hinv
  refine ⟨by simp [isSetGoClose], ?_⟩
  cases pc with
  | copied err =>
    cases err <;>
      simpa [before_snoc, isCopyError, isTest, isReport, isSetGoClose] using hpc
  | _ => simpa [before_snoc, isCopyError, isTest, isReport, isSetGoClose] using hpc

/-- A task that has not got past a successful copy may move within
"not started", "copying" and "copied without error". -/
theorem rep_quiet (t : Task) (g : Bool) (pc pc' : TPc) (evs : List Event)
    (hpc : pc = .notStarted ∨ pc = .copying ∨ pc = .copied none)
    (hpc' : pc' = .notStarted ∨ pc' = .copying ∨ pc' = .copied none)
    (hinv : RepCore t g pc evs) : RepCore t g pc' evs := by
  rcases hpc with rfl | rfl | rfl <;> rcases hpc' with rfl | rfl | rfl <;> exact hinv

theorem rep_step_handler (t : Task) (st st' : State) (hctl : Ctl st)
    (hinv : Rep t st)
    (h : handleConn.step st .handler = some st') : Rep t st' := by
  obtain ⟨hp, s, g, c2u, u2c, evs⟩ := st
  simp only [handleConn.step] at h
  unfold Rep at *
  unfold Ctl at hctl
  cases hp <;> simp at h
  · subst h
    obtain ⟨c, -, -, h3, -⟩ := hctl
    have h3' : c2u = .notStarted := phase_eq_zero _ h3
    subst h3'
    cases t
    · exact rep_irrelevant _ _ _ _ _ rfl rfl rfl rfl
        (rep_quiet _ _ _ .copying _ (Or.inl rfl) (Or.inr (Or.inl rfl)) hinv)
    · exact rep_irrelevant _ _ _ _ _ rfl rfl rfl rfl hinv
  · subst h
    obtain ⟨c, -, -, -, h4, -⟩ := hctl
    have h4' : u2c = .notStarted := phase_eq_zero _ h4
    subst h4'
    cases t
    · exact rep_irrelevant _ _ _ _ _ rfl rfl rfl rfl hinv
    · exact rep_irrelevant _ _ _ _ _ rfl rfl rfl rfl
        (rep_quiet _ _ _ .copying _ (Or.inl rfl) (Or.inr (Or.inl rfl)) hinv)
  · subst h
    cases t <;> exact rep_setGoClose _ _ _ _ hinv
  · split at h <;> simp at h
    subst h
    cases t <;> exact rep_irrelevant _ _ _ _ _ rfl rfl rfl rfl hinv
  · subst h
    cases t <;> exact rep_irrelevant _ _ _ _ _ rfl rfl rfl rfl hinv

theorem rep_step_copyReturn (t : Task) (st st' : State) (t' : Task)
    (err : Option Err) (hinv : Rep t st)
    (h : handleConn.step st (.copyReturn t' err) = some st') : Rep t st' := by
  obtain ⟨hp, s, g, c2u, u2c, evs⟩ := st
  simp only [handleConn.step] at h
  unfold Rep at *
  split at h <;> simp at h
  rename_i hc
  subst h
  cases t' <;> cases t <;> simp only [State.tp] at hc hinv
  · subst hc
    cases err with
    | none =>
      exact rep_irrelevant _ _ _ _ _ rfl rfl rfl rfl
        (rep_quiet _ _ _ (.copied none) _ (Or.inr (Or.inl rfl)) (Or.inr (Or.inr rfl)) hinv)
    | some e =>
      obtain ⟨hg, a1, a2, a3⟩ := hinv
      refine ⟨by simp [State.emit, State.setTp, hg, isSetGoClose], ?_⟩
      simp [State.emit, State.setTp, State.tp, isCopyError, isTest, isReport, a2, a3]
  · exact rep_irrelevant _ _ _ _ _ (by cases err <;> rfl) rfl rfl rfl hinv
  · exact rep_irrelevant _ _ _ _ _ (by cases err <;> rfl) rfl rfl rfl hinv
  · subst hc
    cases err with
    | none =>
      exact rep_irrelevant _ _ _ _ _ rfl rfl rfl rfl
        (rep_quiet _ _ _ (.copied none) _ (Or.inr (Or.inl rfl)) (Or.inr (Or.inr rfl)) hinv)
    | some e =>
      obtain ⟨hg, a1, a2, a3⟩ := hinv
      refine ⟨by simp [State.emit, State.setTp, hg, isSetGoClose], ?_⟩
      simp [State.emit, State.setTp, State.tp, isCopyError, isTest, isReport, a2, a3]

theorem rep_step_done (t : Task) (st st' : State) (t' : Task)
    (hinv : Rep t st)
    (h : handleConn.step st (.done t') = some st') : Rep t st' := by
  obtain ⟨hp, s, g, c2u, u2c, evs⟩ := st
  simp only [handleConn.step] at h
  unfold Rep at *
  split at h <;> simp at h <;> rename_i hc <;> subst h <;>
    cases t' <;> cases t <;> simp only [State.tp] at hc hinv <;>
    first
      | exact rep_irrelevant _ _ _ _ _ rfl rfl rfl rfl hinv
      | (subst hc
         have hfin : RepCore _ g .finished evs := hinv
         exact rep_irrelevant _ _ _ _ _ rfl rfl rfl rfl hfin)

theorem rep_step_task (t : Task) (st st' : State) (t' : Task)
    (hinv : Rep t st)
    (h : handleConn.step st (.task t') = some st') : Rep t st' := by
  obtain ⟨hp, s, g, c2u, u2c, evs⟩ := st
  simp only [handleConn.step] at h
  unfold Rep at *
  split at h <;> try (simp at h)
  · rename_i hc
    subst h
    cases t' <;> cases t <;> simp only [State.tp] at hc hinv
    · subst hc
      obtain ⟨hg, a1, a2, a3⟩ := hinv
      refine ⟨hg, ?_⟩
      simp [State.setTp, State.tp, a1, a2, a3, before_le_any]
    · exact hinv
    · exact hinv
    · subst hc
      obtain ⟨hg, a1, a2, a3⟩ := hinv
      refine ⟨hg, ?_⟩
      simp [State.setTp, State.tp, a1, a2, a3, before_le_any]
  · rename_i e hc
    split at h <;> simp at h <;> rename_i hgc <;> subst h <;>
      cases t' <;> cases t <;> simp only [State.tp] at hc hinv hgc
    · subst hc
      obtain ⟨hg, a1, a2, a3⟩ := hinv
      have hg' : evs.any isSetGoClose = true := by rw [← hg]; exact hgc
      refine ⟨by simp [State.emit, State.setTp, hg, isSetGoClose], ?_⟩
      simp [State.emit, State.setTp, State.tp, before_snoc, isCopyError, isTest,
        isReport, isSetGoClose, a1, a2, a3, hg', before_le_any]
    · exact rep_irrelevant _ _ _ _ _ rfl rfl rfl rfl hinv
    · exact rep_irrelevant _ _ _ _ _ rfl rfl rfl rfl hinv
    · subst hc
      obtain ⟨hg, a1, a2, a3⟩ := hinv
      have hg' : evs.any isSetGoClose = true := by rw [← hg]; exact hgc
      refine ⟨by simp [State.emit, State.setTp, hg, isSetGoClose], ?_⟩
      simp [State.emit, State.setTp, State.tp, before_snoc, isCopyError, isTest,
        isReport, isSetGoClose, a1, a2, a3, hg', before_le_any]
    · subst hc
      obtain ⟨hg, a1, a2, a3⟩ := hinv
      have hg' : evs.any isSetGoClose = false := by
        rw [← hg]; simpa using hgc
      refine ⟨by simp [State.emit, State.setTp, hg, isSetGoClose], ?_⟩
      simp [State.emit, State.setTp, State.tp, before_snoc, isCopyError, isTest,
        isReport, isSetGoClose, a1, a2, a3, hg', before_eq_any]
    · exact rep_irrelevant _ _ _ _ _ rfl rfl rfl rfl hinv
    · exact rep_irrelevant _ _ _ _ _ rfl rfl rfl rfl hinv
    · subst hc
      obtain ⟨hg, a1, a2, a3⟩ := hinv
      have hg' : evs.any isSetGoClose = false := by
        rw [← hg]; simpa using hgc
      refine ⟨by simp [State.emit, State.setTp, hg, isSetGoClose], ?_⟩
      simp [State.emit, State.setTp, State.tp, before_snoc, isCopyError, isTest,
        isReport, isSetGoClose, a1, a2, a3, hg', before_eq_any]
  · rename_i e hc
    subst h
    cases t' <;> cases t <;> simp only [State.tp] at hc hinv
    · subst hc
      obtain ⟨hg, a1, a2, a3⟩ := hinv
      have a4 := any_of_before _ _ _ a2
      refine ⟨by simp [State.emit, State.setTp, hg, isSetGoClose], ?_⟩
      simp [State.emit, State.setTp, State.tp, before_snoc, isCopyError, isTest,
        isReport, isSetGoClose, copyMsg, a1, a2, a3, a4]
    · exact rep_irrelevant _ _ _ _ _ rfl rfl rfl rfl hinv
    · exact rep_irrelevant _ _ _ _ _ rfl rfl rfl rfl hinv
    · subst hc
      obtain ⟨hg, a1, a2, a3⟩ := hinv
      have a4 := any_of_before _ _ _ a2
      refine ⟨by simp [State.emit, State.setTp, hg, isSetGoClose], ?_⟩
      simp [State.emit, State.setTp, State.tp, before_snoc, isCopyError, isTest,
        isReport, isSetGoClose, copyMsg, a1, a2, a3, a4]

theorem rep_step (t : Task) (st st' : State) (a : Action) (hctl : Ctl st)
    (hinv : Rep t st) (h : handleConn.step st a = some st') : Rep t st' := by
  cases a with
  | handler => exact rep_step_handler t st st' hctl hinv h
  | copyReturn t' err => exact rep_step_copyReturn t st st' t' err hinv h
  | task t' => exact rep_step_task t st st' t' hinv h
  | done t' => exact rep_step_done t st st' t' hinv h

/-- Nothing in lines 68-99 is a relay event. -/
theorem enter_events_quiet (p : Proxy) (env : Env) (t : Task) :
    ∀ e ∈ (handleConn.enter p env).events,
      isCopyError t e = false ∧ isTest t e = false ∧ isReport t e = false ∧
        isSetGoClose e = false := by
  have hdial : ∀ bs, ∀ e ∈ (handleConn.dial p env bs 0 none none).events,
      isCopyError t e = false ∧ isTest t e = false ∧ isReport t e = false ∧
        isSetGoClose e = false := by
    intro bs e he
    rcases dial_events_shape p env bs 0 none none e he with ⟨a, k, r, rfl⟩ | ⟨x, rfl⟩ <;>
      exact ⟨rfl, rfl, rfl, rfl⟩
  intro e he
  rcases enter_cases p env with ⟨bs, x, hg⟩ | hg | ⟨bs, x, hg, hne, hd⟩ | ⟨bs, hg, hne, hd⟩
  · rw [enter_get_error p env bs x hg] at he
    simp only [State.returnedWith, List.mem_cons, List.mem_singleton, List.mem_nil_iff,
      or_false] at he
    rcases he with rfl | rfl | rfl <;> exact ⟨rfl, rfl, rfl, rfl⟩
  · rw [enter_empty p env hg] at he
    simp only [State.returnedWith, List.mem_cons, List.mem_singleton, List.mem_nil_iff,
      or_false] at he
    rcases he with rfl | rfl | rfl <;> exact ⟨rfl, rfl, rfl, rfl⟩
  · rw [enter_giveup p env bs x hg hne hd] at he
    simp only [State.returnedWith, List.mem_cons, List.mem_append, List.mem_singleton,
      List.mem_nil_iff, or_false] at he
    rcases he with (rfl | he) | rfl | rfl
    · exact ⟨rfl, rfl, rfl, rfl⟩
    · exact hdial bs e he
    · exact ⟨rfl, rfl, rfl, rfl⟩
    · exact ⟨rfl, rfl, rfl, rfl⟩
  · rw [enter_session p env bs hg hne hd] at he
    simp only [List.mem_cons] at he
    rcases he with rfl | he
    · exact ⟨rfl, rfl, rfl, rfl⟩
    · exact hdial bs e he

theorem any_false_of_forall (p : Event → Bool) (evs : List Event)
    (h : ∀ e ∈ evs, p e = false) : evs.any p = false := by
  cases hany : evs.any p
  · rfl
  · rw [List.any_eq_true] at hany
    obtain ⟨e, he, hp⟩ := hany
    rw [h e he] at hp
    cases hp

theorem enter_tasks_not_started (p : Proxy) (env : Env) (t : Task) :
    (handleConn.enter p env).tp t = .notStarted ∧
      (handleConn.enter p env).goClose = false := by
  rcases enter_cases p env with ⟨bs, x, hg⟩ | hg | ⟨bs, x, hg, hne, hd⟩ | ⟨bs, hg, hne, hd⟩
  · rw [enter_get_error p env bs x hg]; cases t <;> exact ⟨rfl, rfl⟩
  · rw [enter_empty p env hg]; cases t <;> exact ⟨rfl, rfl⟩
  · rw [enter_giveup p env bs x hg hne hd]; cases t <;> exact ⟨rfl, rfl⟩
  · rw [enter_session p env bs hg hne hd]; cases t <;> exact ⟨rfl, rfl⟩

theorem rep_enter (p : Proxy) (env : Env) (t : Task) :
    Rep t (handleConn.enter p env) := by
  have hq := enter_events_quiet p env t
  obtain ⟨h1, h2⟩ := enter_tasks_not_started p env t
  unfold Rep
  rw [h1, h2]
  refine ⟨?_, ?_, ?_, ?_⟩
  · exact (any_false_of_forall _ _ fun e he => (hq e he).2.2.2).symm
  · exact any_false_of_forall _ _ fun e he => (hq e he).1
  · exact any_false_of_forall _ _ fun e he => (hq e he).2.1
  · exact any_false_of_forall _ _ fun e he => (hq e he).2.2.1

theorem rep_reachable (p : Proxy) (env : Env) (st : State)
    (h : handleConn.Reachable p env st) : ∀ t, Rep t st := by
  obtain ⟨sched, hrun⟩ := h
  have := run_induction (fun st => Ctl st ∧ ∀ t, Rep t st) _
    ⟨ctl_enter p env, rep_enter p env⟩
    (fun st a st' hinv hs =>
      ⟨ctl_step st st' a hinv.1 hs, fun t => rep_step t st st' a hinv.1 (hinv.2 t) hs⟩)
    sched st hrun
  exact this.2

/-- A task's log line implies that its copy failed before `goClose` was set. -/
theorem report_only_before (t : Task) (st : State) (hrep : Rep t st)
    (h : st.events.any (isReport t) = true) :
    before (isCopyError t) isSetGoClose st.events = true := by
  obtain ⟨-, hpc⟩ := hrep
  cases hpc' : st.tp t with
  | copied err =>
    rw [hpc'] at hpc
    cases err <;> (simp only at hpc; rw [hpc.2.2] at h; cases h)
  | logging e => rw [hpc'] at hpc; rw [hpc.2.2] at h; cases h
  | sending => rw [hpc'] at hpc; exact hpc.1 h
  | finished => rw [hpc'] at hpc; exact hpc.1 h
  | notStarted => rw [hpc'] at hpc; rw [hpc.2.2] at h; cases h
  | copying => rw [hpc'] at hpc; rw [hpc.2.2] at h; cases h

/-! ## Backend resolution and failover dial -/

/-- C1: when the resolver returns candidates `bs` without error, the dial
to candidate `i` succeeds with connection `c` and the dials to all
candidates before it fail, `handleConn` proceeds to the relay (line 102)
and, in every state it can reach, the dials made are exactly those to
candidates `0..i` in the order given (so none after `i`) and its upstream
connection `s` is `c`. -/
theorem handleConn_failover_first_reachable (p : Proxy) (env : Env)
    (bs : List Backend) (i : Nat) (b : Backend) (c : Conn)
    (hget : env.Get p.port = (bs, none))
    (hb : bs[i]? = some b)
    (hfail : ∀ j b', j < i → bs[j]? = some b' →
      ∃ e, env.DialTimeout j (target b') p.timeout = .error e)
    (hok : env.DialTimeout i (target b) p.timeout = .ok c) :
    (handleConn.enter p env).h = .goClient ∧
    ∀ st, handleConn.Reachable p env st →
      st.s = some c ∧ dialed st.events = (bs.take (i + 1)).map target := by
  have hne : bs ≠ [] := by
    intro h; subst h; simp at hb
  obtain ⟨h1, h2, h3⟩ := dial_first_ok p env bs 0 i b c none none hb
    (by simpa using hfail) (by simpa using hok)
  have henter := enter_session p env bs hget hne h2
  refine ⟨by rw [henter], ?_⟩
  rintro st ⟨sched, hrun⟩
  obtain ⟨f1, f2, _⟩ := run_frame _ sched st hrun
  rw [f1, f2, henter]
  refine ⟨h1, ?_⟩
  show dialed (_ :: _) = _
  rw [← h3]
  simp [dialed, List.filterMap_cons]

/-- Instance: candidates 9001, 9002, 9003 with only 9002 reachable. -/
theorem handleConn_failover_first_reachable_witness :
    (handleConn.enter exProxy exEnvSecond).h = .goClient ∧
    exStateReset.s = some 42 ∧
    dialed exStateReset.events = [⟨"127.0.0.1", 9001⟩, ⟨"127.0.0.1", 9002⟩] :=
  have h := handleConn_failover_first_reachable exProxy exEnvSecond
    [⟨9001⟩, ⟨9002⟩, ⟨9003⟩] 1 ⟨9002⟩ 42 rfl rfl
    (by
      intro j b' hj hb'
      have hj0 : j = 0 := by omega
      subst hj0
      simp at hb'
      subst hb'
      exact ⟨"i/o timeout", rfl⟩)
    rfl
  ⟨h.1, h.2 exStateReset ⟨exSchedReset, rfl⟩⟩

/-- C2: when the resolver returns a non-empty candidate list `bs` without
error and every dial fails, the last one (to `bLast`) with `eLast`, then in
every state `handleConn` can reach it has returned `eLast`, has dialed every
candidate once in order, has closed the client connection once as its last
operation, has written "Giveup to connect backends" with `eLast` as its last
log line, and has started no relay task. -/
theorem handleConn_all_unreachable (p : Proxy) (env : Env) (bs : List Backend)
    (bLast : Backend) (eLast : Err)
    (hget : env.Get p.port = (bs, none))
    (hlast : bs.getLast? = some bLast)
    (hfail : ∀ j b', bs[j]? = some b' →
      ∃ e, env.DialTimeout j (target b') p.timeout = .error e)
    (hlastErr : env.DialTimeout (bs.length - 1) (target bLast) p.timeout
      = .error eLast) :
    ∀ st, handleConn.Reachable p env st →
      st.h = .returned (some eLast) ∧
      dialed st.events = bs.map target ∧
      st.events.count .closeClient = 1 ∧
      st.events.getLast? = some .closeClient ∧
      (logged st.events).getLast? = some (.giveup eLast) ∧
      started st.events = [] ∧ st.c2u = .notStarted ∧ st.u2c = .notStarted ∧
      st.s = none := by
  have hne : bs ≠ [] := by
    intro h; subst h; simp at hlast
  obtain ⟨h1, h2, h3⟩ := dial_all_fail p env bs 0 bLast eLast none none hlast
    (by simpa using hfail) (by simpa using hlastErr)
  obtain ⟨_, o2, _, o4⟩ := dial_events_observed p env bs 0 none none
  have henter := enter_giveup p env bs eLast hget hne h2
  rintro st ⟨sched, hrun⟩
  have hst : st = handleConn.enter p env :=
    run_returned _ st sched (some eLast) (by rw [henter]; rfl)
      (by rw [henter]; rfl) (by rw [henter]; rfl) hrun
  rw [hst, henter]
  simp only [State.returnedWith]
  refine ⟨trivial, ?_, ?_, ?_, ?_, ?_, trivial, trivial, h1⟩
  · simp only [dialed] at h3 ⊢
    simp [List.filterMap_cons, h3]
  · simp [List.count_cons, o4]
  · simp [List.getLast?_cons]
  · simp only [logged, List.filterMap_cons, List.filterMap_append]
    simp
  · simp only [started] at o2 ⊢
    simp [List.filterMap_cons, o2]

/-- Instance: two candidates that fail with different errors. -/
theorem handleConn_all_unreachable_witness :
    (handleConn.enter exProxy exEnvNone).h
      = .returned (some "connection refused") ∧
    dialed (handleConn.enter exProxy exEnvNone).events
      = [⟨9001⟩, ⟨9002⟩].map target ∧
    (handleConn.enter exProxy exEnvNone).events.count .closeClient = 1 ∧
    (handleConn.enter exProxy exEnvNone).events.getLast? = some .closeClient ∧
    (logged (handleConn.enter exProxy exEnvNone).events).getLast?
      = some (.giveup "connection refused") ∧
    started (handleConn.enter exProxy exEnvNone).events = [] ∧
    (handleConn.enter exProxy exEnvNone).c2u = .notStarted ∧
    (handleConn.enter exProxy exEnvNone).u2c = .notStarted ∧
    (handleConn.enter exProxy exEnvNone).s = none :=
  handleConn_all_unreachable exProxy exEnvNone [⟨9001⟩, ⟨9002⟩] ⟨9002⟩
    "connection refused" rfl rfl
    (by
      intro j b' _
      by_cases hj : j = 0
      · exact ⟨"i/o timeout", by simp [exEnvNone, hj]⟩
      · exact ⟨"connection refused", by simp [exEnvNone, hj]⟩)
    rfl (handleConn.enter exProxy exEnvNone) ⟨[], rfl⟩

/-- C3: when the resolver returns an empty candidate list without error,
what `handleConn` does in total is: call the resolver, write "Failed to get
backends port", close the client connection, and return the error
"Failed to get backends port" (not nil). No dial is made and no relay task
is started. -/
theorem handleConn_no_backends (p : Proxy) (env : Env)
    (hget : env.Get p.port = ([], none)) :
    ∀ st, handleConn.Reachable p env st →
      st.h = .returned (some "Failed to get backends port") ∧
      st.events = [.get p.port, .log .failedGetBackendsPort, .closeClient] ∧
      dialed st.events = [] ∧ started st.events = [] ∧
      st.events.count .closeClient = 1 ∧
      st.c2u = .notStarted ∧ st.u2c = .notStarted := by
  have henter := enter_empty p env hget
  rintro st ⟨sched, hrun⟩
  have hst : st = handleConn.enter p env :=
    run_returned _ st sched (some "Failed to get backends port")
      (by rw [henter]; rfl) (by rw [henter]; rfl) (by rw [henter]; rfl) hrun
  rw [hst, henter]
  simp [State.returnedWith, dialed, started]

/-- Instance: a resolver that knows no backend for port 8080. -/
theorem handleConn_no_backends_witness :
    (handleConn.enter exProxy exEnvEmpty).h
      = .returned (some "Failed to get backends port") ∧
    (handleConn.enter exProxy exEnvEmpty).events
      = [.get 8080, .log .failedGetBackendsPort, .closeClient] ∧
    dialed (handleConn.enter exProxy exEnvEmpty).events = [] ∧
    started (handleConn.enter exProxy exEnvEmpty).events = [] ∧
    (handleConn.enter exProxy exEnvEmpty).events.count .closeClient = 1 ∧
    (handleConn.enter exProxy exEnvEmpty).c2u = .notStarted ∧
    (handleConn.enter exProxy exEnvEmpty).u2c = .notStarted :=
  handleConn_no_backends exProxy exEnvEmpty rfl
    (handleConn.enter exProxy exEnvEmpty) ⟨[], rfl⟩

/-- C4: in every state `handleConn` can reach, the resolver has been called
exactly once, with the proxy's configured port; and when that call fails
with `e` (whatever candidates come with it), what `handleConn` does in total
is: call the resolver, write "Failed to get backends" with `e`, close the
client connection, and return `e`; no dial is made. -/
theorem handleConn_resolver_failure (p : Proxy) (env : Env) :
    (∀ st, handleConn.Reachable p env st → resolved st.events = [p.port]) ∧
    (∀ bs e, env.Get p.port = (bs, some e) →
      ∀ st, handleConn.Reachable p env st →
        st.h = .returned (some e) ∧
        st.events = [.get p.port, .log (.failedGetBackends e), .closeClient] ∧
        dialed st.events = [] ∧ started st.events = [] ∧
        st.events.count .closeClient = 1) := by
  constructor
  · rintro st ⟨sched, hrun⟩
    rw [(run_frame _ sched st hrun).2.2.1]
    exact enter_resolved p env
  · rintro bs e hget st ⟨sched, hrun⟩
    have henter := enter_get_error p env bs e hget
    have hst : st = handleConn.enter p env :=
      run_returned _ st sched (some e)
        (by rw [henter]; rfl) (by rw [henter]; rfl) (by rw [henter]; rfl) hrun
    rw [hst, henter]
    simp [State.returnedWith, dialed, started]

/-- Instance: a resolver that cannot reach its source. -/
theorem handleConn_resolver_failure_witness :
    (handleConn.enter exProxy exEnvResolverDown).h
      = .returned (some "docker: connection refused") ∧
    (handleConn.enter exProxy exEnvResolverDown).events
      = [.get 8080, .log (.failedGetBackends "docker: connection refused"),
        .closeClient] ∧
    dialed (handleConn.enter exProxy exEnvResolverDown).events = [] ∧
    started (handleConn.enter exProxy exEnvResolverDown).events = [] ∧
    (handleConn.enter exProxy exEnvResolverDown).events.count .closeClient = 1 :=
  (handleConn_resolver_failure exProxy exEnvResolverDown).2 []
    "docker: connection refused" rfl
    (handleConn.enter exProxy exEnvResolverDown) ⟨[], rfl⟩

/-! ## Relay and teardown -/

theorem not_returned_error_reachable (p : Proxy) (env : Env)
    (hpaired : (handleConn.enter p env).h = .goClient) (st : State)
    (h : handleConn.Reachable p env st) : ∀ e, st.h ≠ .returned (some e) := by
  obtain ⟨sched, hrun⟩ := h
  refine run_induction (fun st => ∀ e, st.h ≠ .returned (some e)) _ ?_
    (fun st a st' hinv hs => step_not_returned_error st st' a hinv hs) sched st hrun
  intro e
  rw [hpaired]
  simp

/-- Under the control invariant, a call that has not returned an error has
run a prefix of the script, of a length fixed by its program counter. -/
theorem ctl_script (st : State) (hinv : Ctl st)
    (hne : ∀ e, st.h ≠ .returned (some e)) :
    ∃ first c n, st.s = some c ∧
      handlerOps st.events = (script first c).take n ∧
      (st.h = .recvSecond → n = 6) ∧
      (∀ r, st.h = .returned r →
        r = none ∧ n = 7 ∧ st.c2u = .finished ∧ st.u2c = .finished) := by
  obtain ⟨hp, s, g, c2u, u2c, evs⟩ := st
  unfold Ctl at hinv
  cases hp with
  | goClient =>
    obtain ⟨c, h1, h2, -⟩ := hinv
    exact ⟨.clientToUpstream, c, 0, h1, by simpa using h2, by simp, by simp⟩
  | goUpstream =>
    obtain ⟨c, h1, h2, -⟩ := hinv
    exact ⟨.clientToUpstream, c, 1, h1, by simpa [script] using h2, by simp, by simp⟩
  | recvFirst =>
    obtain ⟨c, h1, h2, -⟩ := hinv
    exact ⟨.clientToUpstream, c, 2, h1, by simpa [script] using h2, by simp, by simp⟩
  | setGoClose =>
    obtain ⟨c, t, h1, h2, -⟩ := hinv
    exact ⟨t, c, 3, h1, h2, by simp, by simp⟩
  | closeUpstream =>
    obtain ⟨c, t, h1, h2, -⟩ := hinv
    exact ⟨t, c, 4, h1, h2, by simp, by simp⟩
  | closeClient =>
    obtain ⟨c, t, h1, h2, -⟩ := hinv
    exact ⟨t, c, 5, h1, h2, by simp, by simp⟩
  | recvSecond =>
    obtain ⟨c, t, h1, h2, -⟩ := hinv
    exact ⟨t, c, 6, h1, h2, by simp, by simp⟩
  | returned r =>
    cases r with
    | some e => exact absurd rfl (hne e)
    | none =>
      obtain ⟨c, t, h1, h2, h3, h4, -⟩ := hinv
      refine ⟨t, c, 7, h1, by simpa [script] using h2, by simp, ?_⟩
      intro r hr
      simp only [HPc.returned.injEq] at hr
      exact ⟨hr.symm, rfl, phase_eq_two _ h3, phase_eq_two _ h4⟩

theorem count_done_handlerOps (evs : List Event) (t : Task) :
    evs.count (.done t) = (handlerOps evs).count (.done t) := by
  simp only [handlerOps]
  rw [List.count_filter]
  rfl

theorem count_closeClient_handlerOps (evs : List Event) :
    evs.count .closeClient = (handlerOps evs).count .closeClient := by
  simp only [handlerOps]
  rw [List.count_filter]
  rfl

theorem upstreamClosed_handlerOps (evs : List Event) :
    upstreamClosed evs = upstreamClosed (handlerOps evs) := by
  simp only [handlerOps, upstreamClosed, List.filterMap_filter]
  congr 1
  funext e
  cases e <;> simp [isHandlerOp]

/-- C5: for a successfully paired session (the call reached line 102), in
every reachable state the handler's own operations, in order, are a prefix
of: start `client => upstream`, start `upstream => client`, receive the
signal of the task that finishes first, set `goClose`, close the upstream
handle, close the client handle, receive the signal of the other task. When
the handler stands at its second receive it has run the first six of them
(so both closes follow the first signal and precede the second wait); when
it has returned it has returned nil, has run all seven, each task has sent
its signal exactly once and both tasks have ended. -/
theorem handleConn_teardown_barrier (p : Proxy) (env : Env)
    (hpaired : (handleConn.enter p env).h = .goClient) (st : State)
    (hreach : handleConn.Reachable p env st) :
    ∃ first c, st.s = some c ∧
      handlerOps st.events <+: script first c ∧
      (st.h = .recvSecond → handlerOps st.events = (script first c).take 6) ∧
      (∀ r, st.h = .returned r →
        r = none ∧ handlerOps st.events = script first c ∧
        st.c2u = .finished ∧ st.u2c = .finished ∧
        ∀ t, st.events.count (.done t) = 1) := by
  obtain ⟨first, c, n, h1, h2, h3, h4⟩ := ctl_script st (ctl_reachable p env st hreach)
    (not_returned_error_reachable p env hpaired st hreach)
  refine ⟨first, c, h1, ?_, ?_, ?_⟩
  · rw [h2]; exact List.take_prefix _ _
  · intro hh; rw [h2, h3 hh]
  · intro r hr
    obtain ⟨a1, a2, a3, a4⟩ := h4 r hr
    have hfull : handlerOps st.events = script first c := by
      rw [h2, a2]; simp [script]
    refine ⟨a1, hfull, a3, a4, ?_⟩
    intro t
    rw [count_done_handlerOps, hfull]
    cases t <;> cases first <;> simp [script, other, List.count_cons]

/-- Instance: the client resets, then the upstream copy fails on the
closed handles. -/
theorem handleConn_teardown_barrier_witness :
    ∃ first c, exStateReset.s = some c ∧
      handlerOps exStateReset.events <+: script first c ∧
      (exStateReset.h = .recvSecond →
        handlerOps exStateReset.events = (script first c).take 6) ∧
      (∀ r, exStateReset.h = .returned r →
        r = none ∧ handlerOps exStateReset.events = script first c ∧
        exStateReset.c2u = .finished ∧ exStateReset.u2c = .finished ∧
        ∀ t, exStateReset.events.count (.done t) = 1) :=
  handleConn_teardown_barrier exProxy exEnvSecond rfl exStateReset
    ⟨exSchedReset, rfl⟩

theorem opened_reachable (p : Proxy) (env : Env) (st : State)
    (h : handleConn.Reachable p env st) : opened st.events = st.s.toList := by
  obtain ⟨sched, hrun⟩ := h
  obtain ⟨f1, -, -, f4⟩ := run_frame _ sched st hrun
  rw [f1, f4]
  rcases enter_cases p env with ⟨bs, e, hg⟩ | hg | ⟨bs, e, hg, hne, hd⟩ | ⟨bs, hg, hne, hd⟩
  · rw [enter_get_error p env bs e hg]; rfl
  · rw [enter_empty p env hg]; rfl
  · rw [enter_giveup p env bs e hg hne hd]
    have := dial_opened p env bs 0 none
    simp only [opened] at this ⊢
    simp [State.returnedWith, List.filterMap_cons, this]
  · rw [enter_session p env bs hg hne hd]
    have := dial_opened p env bs 0 none
    simp only [opened] at this ⊢
    simp [List.filterMap_cons, this]

/-- C6: in every state `handleConn` can reach, on any path, the client
handle has been closed at most once, the upstream handles obtained by dials
are exactly the value of `s` (at most one), and the upstream handles closed
are a prefix of those obtained; once the call has returned, the client
handle has been closed exactly once and the upstream handles closed are
exactly those obtained (once if a dial succeeded, never otherwise). -/
theorem handleConn_handles_closed_once (p : Proxy) (env : Env) (st : State)
    (hreach : handleConn.Reachable p env st) :
    st.events.count .closeClient ≤ 1 ∧
    opened st.events = st.s.toList ∧
    upstreamClosed st.events <+: opened st.events ∧
    (∀ r, st.h = .returned r →
      st.events.count .closeClient = 1 ∧
      upstreamClosed st.events = opened st.events) := by
  have hopen := opened_reachable p env st hreach
  have hctl := ctl_reachable p env st hreach
  rw [count_closeClient_handlerOps, upstreamClosed_handlerOps, hopen]
  by_cases hne : ∀ e, st.h ≠ .returned (some e)
  · obtain ⟨first, c, n, h1, h2, h3, h4⟩ := ctl_script st hctl hne
    have hcount : (script first c).count .closeClient = 1 := by
      cases first <;> simp [script, other, List.count_cons]
    have hup : upstreamClosed (script first c) = [c] := by
      cases first <;> simp [script, upstreamClosed]
    rw [h2, h1]
    refine ⟨?_, rfl, ?_, ?_⟩
    · exact hcount ▸ (List.take_sublist n _).count_le _
    · have := (List.take_prefix n (script first c)).filterMap
        (fun e => match e with
          | .closeUpstream s => some s
          | _ => none)
      simpa [upstreamClosed, hup] using this
    · intro r hr
      obtain ⟨-, a2, -, -⟩ := h4 r hr
      subst a2
      have hfull : (script first c).take 7 = script first c := by simp [script]
      rw [hfull, hcount, hup]
      exact ⟨rfl, rfl⟩
  · simp only [ne_eq, not_forall, not_not] at hne
    obtain ⟨e, he⟩ := hne
    unfold Ctl at hctl
    rw [he] at hctl
    obtain ⟨h1, h2, -⟩ := hctl
    rw [h1, h2]
    simp [upstreamClosed]

/-- Instance: the session of `exSchedReset`. -/
theorem handleConn_handles_closed_once_witness :
    exStateReset.events.count .closeClient ≤ 1 ∧
    opened exStateReset.events = exStateReset.s.toList ∧
    upstreamClosed exStateReset.events <+: opened exStateReset.events ∧
    (∀ r, exStateReset.h = .returned r →
      exStateReset.events.count .closeClient = 1 ∧
      upstreamClosed exStateReset.events = opened exStateReset.events) :=
  handleConn_handles_closed_once exProxy exEnvSecond exStateReset
    ⟨exSchedReset, rfl⟩

/-- C7 (as the code has it): in every state `handleConn` can reach and for
each relay task, (1) the task has written its copy error to the log only if
its `io.Copy` returned an error before the handler set `goClose`; (2) if
the handler set `goClose` before the task's `io.Copy` returned an error, the
task has written no such line; (3) once the call has returned, the task has
written the line exactly when its test of `goClose` came before the
handler's write of `goClose`. -/
theorem relay_error_report_policy (p : Proxy) (env : Env) (st : State)
    (t : Task) (hreach : handleConn.Reachable p env st) :
    (st.events.any (isReport t) = true →
      before (isCopyError t) isSetGoClose st.events = true) ∧
    (before isSetGoClose (isCopyError t) st.events = true →
      st.events.any (isReport t) = false) ∧
    (∀ r, st.h = .returned r →
      st.events.any (isReport t) = before (isTest t) isSetGoClose st.events) := by
  have hrep := rep_reachable p env st hreach t
  have hctl := ctl_reachable p env st hreach
  refine ⟨report_only_before t st hrep, ?_, ?_⟩
  · intro hb
    cases hany : st.events.any (isReport t)
    · rfl
    · exfalso
      refine before_antisymm (isCopyError t) isSetGoClose st.events ?_
        (report_only_before t st hrep hany) hb
      intro e he
      cases e <;> first | rfl | simp [isCopyError] at he
  · intro r hr
    have hpc : st.tp t = .finished ∨ st.tp t = .notStarted := by
      unfold Ctl at hctl
      rw [hr] at hctl
      cases r with
      | none =>
        obtain ⟨c, f, -, -, h3, h4, -⟩ := hctl
        cases t
        · exact Or.inl (phase_eq_two _ h3)
        · exact Or.inl (phase_eq_two _ h4)
      | some e =>
        obtain ⟨-, -, h3, h4, -⟩ := hctl
        cases t
        · exact Or.inr (phase_eq_zero _ h3)
        · exact Or.inr (phase_eq_zero _ h4)
    obtain ⟨-, hcore⟩ := hrep
    rcases hpc with hpc | hpc <;> rw [hpc] at hcore
    · exact hcore.2.2
    · rw [hcore.2.2, before_le_any _ _ _ hcore.2.1]

/-- Instance: the client resets, reports, and the upstream task's
later failure stays silent. -/
theorem relay_error_report_policy_witness :
    (exStateReset.events.any (isReport .upstreamToClient) = true →
      before (isCopyError .upstreamToClient) isSetGoClose exStateReset.events
        = true) ∧
    (before isSetGoClose (isCopyError .upstreamToClient) exStateReset.events
        = true →
      exStateReset.events.any (isReport .upstreamToClient) = false) ∧
    (∀ r, exStateReset.h = .returned r →
      exStateReset.events.any (isReport .upstreamToClient)
        = before (isTest .upstreamToClient) isSetGoClose exStateReset.events) :=
  relay_error_report_policy exProxy exEnvSecond exStateReset .upstreamToClient
    ⟨exSchedReset, rfl⟩

/-- C7 as stated fails on two interleavings. In `exSchedRace` the copy of
`client => upstream` returns an error before the handler receives the first
signal and before `goClose` is set, yet the task writes nothing, because it
tests `goClose` after the handler has set it. In `exSchedBoth` both tasks
write their error, so the one that is not first to finish reports too. -/
theorem relay_error_report_policy_counterexample :
    (handleConn.run (handleConn.enter exProxy exEnvSecond) exSchedRace
        = some exStateRace ∧
      exStateRace.h = .returned none ∧
      before (isCopyError .clientToUpstream) isDone exStateRace.events = true ∧
      before (isCopyError .clientToUpstream) isSetGoClose exStateRace.events
        = true ∧
      exStateRace.events.any (isReport .clientToUpstream) = false) ∧
    (handleConn.run (handleConn.enter exProxy exEnvSecond) exSchedBoth
        = some exStateBoth ∧
      exStateBoth.h = .returned none ∧
      exStateBoth.events.any (isReport .clientToUpstream) = true ∧
      exStateBoth.events.any (isReport .upstreamToClient) = true) := by
  decide

/-! ## Lemmas on `Start` -/

/-- Induction over the states of an interleaving of `Start`. -/
theorem start_run_induction (p : Proxy) (P : StartState → Prop) (st0 : StartState)
    (h0 : P st0)
    (hstep : ∀ st a st', P st → Start.step p st a = some st' → P st') :
    ∀ sched st, Start.run p st0 sched = some st → P st := by
  intro sched
  induction sched generalizing st0 with
  | nil => intro st h; simp [Start.run] at h; subst h; exact h0
  | cons a rest ih =>
    intro st h
    simp only [Start.run] at h
    cases hs : Start.step p st0 a with
    | none => simp [hs] at h
    | some st1 =>
      simp only [hs] at h
      exact ih st1 (hstep st0 a st1 h0 hs) st h

theorem acceptResults_snoc (evs : List StartEvent) (e : StartEvent) :
    acceptResults (evs ++ [e]) = acceptResults evs ++
      (match e with
        | .acceptTCP conn err => [(conn, err)]
        | _ => []) := by
  cases e <;> simp [acceptResults]

theorem dispatched_snoc (evs : List StartEvent) (e : StartEvent) :
    dispatched (evs ++ [e]) = dispatched evs ++
      (match e with
        | .goHandleConn conn => [conn]
        | _ => []) := by
  cases e <;> simp [dispatched]

theorem listenersClosed_snoc (evs : List StartEvent) (e : StartEvent) :
    listenersClosed (evs ++ [e]) = listenersClosed evs ++
      (match e with
        | .closeListener l => [l]
        | _ => []) := by
  cases e <;> simp [listenersClosed]

theorem acceptInv_step (p : Proxy) (st st' : StartState) (a : StartAction)
    (hinv : AcceptInv st) (h : Start.step p st a = some st') : AcceptInv st' := by
  obtain ⟨m, w, l, d, evs⟩ := st
  unfold AcceptInv at *
  cases a with
  | main =>
    simp only [Start.step] at h
    cases m <;> simp at h <;> subst h <;>
      simp_all [StartState.emit, acceptResults_snoc, dispatched_snoc, accepted]
  | accept r =>
    simp only [Start.step] at h
    cases m <;> cases r <;> simp at h <;> subst h <;>
      simp_all [StartState.emit, acceptResults_snoc, dispatched_snoc, accepted]
  | cancel =>
    simp only [Start.step] at h
    split at h <;> simp at h
    subst h
    simpa [StartState.emit, acceptResults_snoc, dispatched_snoc] using hinv
  | watcher =>
    simp only [Start.step] at h
    cases w <;> simp at h
    · obtain ⟨-, h⟩ := h
      subst h
      cases m <;> simp_all
    · subst h
      cases m <;> simp_all [StartState.emit, acceptResults_snoc, dispatched_snoc]
    · split at h <;> simp at h
      subst h
      cases m <;> simp_all [StartState.emit, acceptResults_snoc, dispatched_snoc]
  | handleConnReturn c err =>
    simp only [Start.step] at h
    split at h <;> simp at h
    subst h
    simpa [StartState.emit, acceptResults_snoc, dispatched_snoc] using hinv

theorem watcherInv_step (p : Proxy) (st st' : StartState) (a : StartAction)
    (hacc : AcceptInv st)
    (hinv : WatcherInv st) (h : Start.step p st a = some st') : WatcherInv st' := by
  obtain ⟨m, w, l, d, evs⟩ := st
  unfold WatcherInv at *
  cases a with
  | main =>
    simp only [Start.step] at h
    cases m <;> simp at h <;> subst h
    · have hw : w = .notStarted := hacc.2.2
      subst hw
      simpa [StartState.emit, listenersClosed_snoc] using hinv
    · simpa [StartState.emit, listenersClosed_snoc] using hinv
    · simpa [StartState.emit, listenersClosed_snoc] using hinv
  | accept r =>
    simp only [Start.step] at h
    cases m <;> cases r <;> simp at h <;> subst h <;>
      simpa [StartState.emit, listenersClosed_snoc] using hinv
  | cancel =>
    simp only [Start.step] at h
    split at h <;> simp at h
    subst h
    cases w <;> simp_all [StartState.emit, listenersClosed_snoc]
  | watcher =>
    simp only [Start.step] at h
    cases w <;> simp at h
    · obtain ⟨hd, h⟩ := h
      subst h
      simp_all
    · subst h
      simp_all [StartState.emit, listenersClosed_snoc]
    · split at h <;> simp at h
      subst h
      simp_all [StartState.emit, listenersClosed_snoc]
  | handleConnReturn c err =>
    simp only [Start.step] at h
    split at h <;> simp at h
    subst h
    simpa [StartState.emit, listenersClosed_snoc] using hinv

/-- The three ways `Start` leaves lines 40-48. -/
theorem start_enter_cases (p : Proxy) (env : StartEnv) :
    (∃ e, env.ResolveTCPAddr p.listen p.port = .error e ∧
      Start.enter p env = ⟨.returned (some e), .notStarted, none, env.cancelled,
        [.resolveTCPAddr p.listen p.port]⟩) ∨
    (∃ addr e, env.ResolveTCPAddr p.listen p.port = .ok addr ∧
      env.ListenTCP addr = .error e ∧
      Start.enter p env = ⟨.returned (some e), .notStarted, none, env.cancelled,
        [.resolveTCPAddr p.listen p.port, .log (.startListen p.listen p.port),
          .listenTCP addr]⟩) ∨
    (∃ addr l, env.ResolveTCPAddr p.listen p.port = .ok addr ∧
      env.ListenTCP addr = .ok l ∧
      Start.enter p env = ⟨.goWatcher, .notStarted, some l, env.cancelled,
        [.resolveTCPAddr p.listen p.port, .log (.startListen p.listen p.port),
          .listenTCP addr]⟩) := by
  rcases hr : env.ResolveTCPAddr p.listen p.port with e | addr
  · exact Or.inl ⟨e, rfl, by simp [Start.enter, hr]⟩
  · rcases hl : env.ListenTCP addr with e | l
    · exact Or.inr (Or.inl ⟨addr, e, rfl, hl, by simp [Start.enter, hr, hl]⟩)
    · exact Or.inr (Or.inr ⟨addr, l, rfl, hl, by simp [Start.enter, hr, hl]⟩)

theorem start_inv_enter (p : Proxy) (env : StartEnv) :
    AcceptInv (Start.enter p env) ∧ WatcherInv (Start.enter p env) := by
  rcases start_enter_cases p env with ⟨e, -, h⟩ | ⟨addr, e, -, -, h⟩ | ⟨addr, l, -, -, h⟩ <;>
    rw [h] <;>
    simp [AcceptInv, WatcherInv, acceptResults, dispatched, listenersClosed]

theorem start_inv_reachable (p : Proxy) (env : StartEnv) (st : StartState)
    (h : Start.Reachable p env st) : AcceptInv st ∧ WatcherInv st := by
  obtain ⟨sched, hrun⟩ := h
  exact start_run_induction p (fun st => AcceptInv st ∧ WatcherInv st) _
    (start_inv_enter p env)
    (fun st a st' hinv hs =>
      ⟨acceptInv_step p st st' a hinv.1 hs, watcherInv_step p st st' a hinv.1 hinv.2 hs⟩)
    sched st hrun

/-- Once started, the watcher stays started; `Start` leaves line 50 only by
starting it. -/
theorem started_step (p : Proxy) (st st' : StartState) (a : StartAction)
    (hinv : st.main = .goWatcher ∨ st.watcher ≠ .notStarted)
    (h : Start.step p st a = some st') :
    st'.main = .goWatcher ∨ st'.watcher ≠ .notStarted := by
  obtain ⟨m, w, l, d, evs⟩ := st
  cases a with
  | main =>
    simp only [Start.step] at h
    cases m <;> simp at h <;> subst h <;> simp_all [StartState.emit]
  | accept r =>
    simp only [Start.step] at h
    cases m <;> cases r <;> simp at h <;> subst h <;> simp_all [StartState.emit]
  | cancel =>
    simp only [Start.step] at h
    split at h <;> simp at h
    subst h
    simpa [StartState.emit] using hinv
  | watcher =>
    simp only [Start.step] at h
    cases w <;> simp at h
    · obtain ⟨-, h⟩ := h
      subst h
      simp
    · subst h
      simp [StartState.emit]
    · split at h <;> simp at h
      subst h
      simp [StartState.emit]
  | handleConnReturn c err =>
    simp only [Start.step] at h
    split at h <;> simp at h
    subst h
    simpa [StartState.emit] using hinv

theorem started_reachable (p : Proxy) (env : StartEnv) (st : StartState)
    (hbound : (Start.enter p env).main = .goWatcher)
    (h : Start.Reachable p env st) :
    st.main = .goWatcher ∨ st.watcher ≠ .notStarted := by
  obtain ⟨sched, hrun⟩ := h
  exact start_run_induction p
    (fun st => st.main = .goWatcher ∨ st.watcher ≠ .notStarted) _ (Or.inl hbound)
    (fun st a st' hinv hs => started_step p st st' a hinv hs) sched st hrun

/-- A returned `Start` stays returned, with the same value, and starts no
watcher if none was started. -/
theorem returned_step (p : Proxy) (st st' : StartState) (a : StartAction)
    (r : Option Err)
    (hinv : st.main = .returned r ∧ st.watcher = .notStarted)
    (h : Start.step p st a = some st') :
    st'.main = .returned r ∧ st'.watcher = .notStarted := by
  obtain ⟨m, w, l, d, evs⟩ := st
  obtain ⟨hm, hw⟩ := hinv
  simp only at hm hw
  subst hm hw
  cases a with
  | main => simp [Start.step] at h
  | accept r => cases r <;> simp [Start.step] at h
  | cancel =>
    simp only [Start.step] at h
    split at h <;> simp at h
    subst h
    simp [StartState.emit]
  | watcher => simp [Start.step] at h
  | handleConnReturn c err =>
    simp only [Start.step] at h
    split at h <;> simp at h
    subst h
    simp [StartState.emit]

theorem returned_reachable (p : Proxy) (env : StartEnv) (st : StartState)
    (r : Option Err)
    (hfail : (Start.enter p env).main = .returned r ∧
      (Start.enter p env).watcher = .notStarted)
    (h : Start.Reachable p env st) :
    st.main = .returned r ∧ st.watcher = .notStarted := by
  obtain ⟨sched, hrun⟩ := h
  exact start_run_induction p
    (fun st => st.main = .returned r ∧ st.watcher = .notStarted) _ hfail
    (fun st a st' hinv hs => returned_step p st st' a r hinv hs) sched st hrun

/-- What the accept loop has done, by where `Start` stands, once the
watcher has been started or is about to be. -/
theorem accept_shape (st : StartState) (hacc : AcceptInv st)
    (hstarted : st.main = .goWatcher ∨ st.watcher ≠ .notStarted) :
    (dispatched st.events).map accepted <+: acceptResults st.events ∧
    (st.main = .accept →
      acceptResults st.events = (dispatched st.events).map accepted) ∧
    (∀ r, st.main = .returned r → ∃ e, r = some e ∧
      acceptResults st.events
        = (dispatched st.events).map accepted ++ [(none, some e)]) ∧
    (∀ c e, (c, some e) ∈ acceptResults st.events →
      st.main = .returned (some e)) := by
  obtain ⟨m, w, l, d, evs⟩ := st
  unfold AcceptInv at hacc
  have hmem : ∀ (cs : List Conn) (c : Option Conn) (e : Err),
      (c, some e) ∉ cs.map accepted := by
    intro cs c e hin
    simp [accepted] at hin
  cases m with
  | goWatcher =>
    obtain ⟨h1, h2, -⟩ := hacc
    simp only at h1 h2
    refine ⟨by rw [h1, h2]; simp, (by intro h; cases h), (by intro r h; cases h), ?_⟩
    intro c e hin
    rw [h1] at hin
    cases hin
  | accept =>
    obtain ⟨-, h2⟩ := hacc
    simp only at h2
    refine ⟨by rw [h2], fun _ => h2, (by intro r h; cases h), ?_⟩
    intro c e hin
    rw [h2] at hin
    exact absurd hin (hmem _ c e)
  | setNoDelay conn =>
    obtain ⟨-, h2⟩ := hacc
    simp only at h2
    refine ⟨by rw [h2]; simp, (by intro h; cases h), (by intro r h; cases h), ?_⟩
    intro c e hin
    rw [h2] at hin
    exact absurd hin (hmem _ c e)
  | goHandleConn conn =>
    obtain ⟨-, h2⟩ := hacc
    simp only at h2
    refine ⟨by rw [h2]; simp, (by intro h; cases h), (by intro r h; cases h), ?_⟩
    intro c e hin
    rw [h2] at hin
    exact absurd hin (hmem _ c e)
  | returned r =>
    cases r with
    | none => exact absurd hacc (by simp)
    | some x =>
      simp only at hacc
      rcases hacc with ⟨-, h2⟩ | ⟨h1, -, -⟩
      · refine ⟨by rw [h2]; simp, (by intro h; cases h), ?_, ?_⟩
        · intro r hr
          simp only [MainPc.returned.injEq] at hr
          exact ⟨x, hr.symm, h2⟩
        · intro c e hin
          rw [h2, List.mem_append] at hin
          rcases hin with hin | hin
          · exact absurd hin (hmem _ c e)
          · simp at hin
            rw [hin.2]
      · rcases hstarted with h | h
        · cases h
        · exact absurd h1 h

theorem accepted_injective : Function.Injective accepted := by
  intro a b h
  simpa [accepted] using h

/-- The listener is closed by the watcher alone: at most once, it is the
listener of this `Start`, and `ctx` was cancelled before. As long as `ctx`
is not cancelled the listener stays open, whether or not `Start` has
returned. -/
theorem listener_closed_by_watcher (p : Proxy) (env : StartEnv) (st : StartState)
    (hreach : Start.Reachable p env st) :
    listenersClosed st.events <+: st.l.toList ∧
    (st.ctxDone = false → listenersClosed st.events = []) := by
  obtain ⟨-, hw⟩ := start_inv_reachable p env st hreach
  unfold WatcherInv at hw
  cases hwp : st.watcher <;> rw [hwp] at hw <;> simp only at hw
  · rw [hw]; simp
  · rw [hw]; simp
  · rw [hw.1, hw.2]; simp
  · rw [hw.1, hw.2]; simp
  · rw [hw.1, hw.2]; simp

/-! ## The accept loop -/

/-- C8: `Start` never returns nil. If `ResolveTCPAddr` or `ListenTCP` fails
with `e`, then in every reachable state `Start` has returned `e`, no
`AcceptTCP` call was made and no handler was dispatched. If both succeed,
then in every reachable state the handlers dispatched are for the
connections accepted so far, in accept order (all of them whenever `Start`
is back in `AcceptTCP`); `Start` has returned only after an `AcceptTCP`
call failed, that call is the last one, every earlier call succeeded and
got its handler, and the value returned is that call's error; and when an
`AcceptTCP` call has failed with `e`, `Start` has returned `e`. -/
theorem Start_result (p : Proxy) (env : StartEnv) :
    (∀ st, Start.Reachable p env st → st.main ≠ .returned none) ∧
    (∀ e, (env.ResolveTCPAddr p.listen p.port = .error e ∨
        ∃ addr, env.ResolveTCPAddr p.listen p.port = .ok addr ∧
          env.ListenTCP addr = .error e) →
      ∀ st, Start.Reachable p env st →
        st.main = .returned (some e) ∧ acceptResults st.events = [] ∧
        dispatched st.events = []) ∧
    (∀ addr l, env.ResolveTCPAddr p.listen p.port = .ok addr →
      env.ListenTCP addr = .ok l →
      ∀ st, Start.Reachable p env st →
        (dispatched st.events).map accepted <+: acceptResults st.events ∧
        (st.main = .accept →
          acceptResults st.events = (dispatched st.events).map accepted) ∧
        (∀ r, st.main = .returned r → ∃ e, r = some e ∧
          acceptResults st.events
            = (dispatched st.events).map accepted ++ [(none, some e)]) ∧
        (∀ c e, (c, some e) ∈ acceptResults st.events →
          st.main = .returned (some e))) := by
  refine ⟨?_, ?_, ?_⟩
  · intro st hreach hnil
    have hacc := (start_inv_reachable p env st hreach).1
    unfold AcceptInv at hacc
    rw [hnil] at hacc
    exact hacc
  · intro e hfail st hreach
    have henter : (Start.enter p env).main = .returned (some e) ∧
        (Start.enter p env).watcher = .notStarted := by
      rcases hfail with hr | ⟨addr, hr, hl⟩
      · simp [Start.enter, hr]
      · simp [Start.enter, hr, hl]
    obtain ⟨hm, hw⟩ := returned_reachable p env st (some e) henter hreach
    have hacc := (start_inv_reachable p env st hreach).1
    unfold AcceptInv at hacc
    rw [hm] at hacc
    simp only at hacc
    rcases hacc with ⟨h, -⟩ | ⟨-, h1, h2⟩
    · exact absurd hw h
    · exact ⟨hm, h1, h2⟩
  · intro addr l hr hl st hreach
    have henter : (Start.enter p env).main = .goWatcher := by
      simp [Start.enter, hr, hl]
    exact accept_shape st (start_inv_reachable p env st hreach).1
      (started_reachable p env st henter hreach)

/-- Instance: a port that is taken, and a run that accepts two
connections before the listener is closed. -/
theorem Start_result_witness :
    ((Start.enter exProxy exStartEnvBusy).main
        = .returned (some "bind: address already in use") ∧
      acceptResults (Start.enter exProxy exStartEnvBusy).events = [] ∧
      dispatched (Start.enter exProxy exStartEnvBusy).events = []) ∧
    ((dispatched exStartStateA.events).map accepted
        <+: acceptResults exStartStateA.events ∧
      (exStartStateA.main = .accept →
        acceptResults exStartStateA.events
          = (dispatched exStartStateA.events).map accepted) ∧
      (∀ r, exStartStateA.main = .returned r → ∃ e, r = some e ∧
        acceptResults exStartStateA.events
          = (dispatched exStartStateA.events).map accepted ++ [(none, some e)]) ∧
      (∀ c e, (c, some e) ∈ acceptResults exStartStateA.events →
        exStartStateA.main = .returned (some e))) :=
  ⟨(Start_result exProxy exStartEnvBusy).2.1 "bind: address already in use"
      (Or.inr ⟨⟨"0.0.0.0", 8080⟩, rfl, rfl⟩)
      (Start.enter exProxy exStartEnvBusy) ⟨[], rfl⟩,
    (Start_result exProxy exStartEnv).2.2 ⟨"0.0.0.0", 8080⟩ 3 rfl rfl
      exStartStateA ⟨exStartSchedA, rfl⟩⟩

/-- C9: take two runs of `Start` with the same outcome of resolve-and-bind
and the same results of their `AcceptTCP` calls; nothing is assumed about
which handlers have returned or what they returned. Then one has returned
exactly when the other has, with the same value, and the handlers
dispatched are the same whenever both runs have returned or both are back
in `AcceptTCP`. -/
theorem Start_isolation (p1 p2 : Proxy) (env1 env2 : StartEnv)
    (st1 st2 : StartState)
    (hbind : (Start.enter p1 env1).main = (Start.enter p2 env2).main)
    (h1 : Start.Reachable p1 env1 st1) (h2 : Start.Reachable p2 env2 st2)
    (hacc : acceptResults st1.events = acceptResults st2.events) :
    (∀ r, st1.main = .returned r ↔ st2.main = .returned r) ∧
    ((∃ r, st1.main = .returned r) →
      dispatched st1.events = dispatched st2.events) ∧
    (st1.main = .accept → st2.main = .accept →
      dispatched st1.events = dispatched st2.events) := by
  have hi1 := (start_inv_reachable p1 env1 st1 h1).1
  have hi2 := (start_inv_reachable p2 env2 st2 h2).1
  have hw1 : (Start.enter p1 env1).watcher = .notStarted := by
    rcases start_enter_cases p1 env1 with ⟨e, -, h⟩ | ⟨a, e, -, -, h⟩ | ⟨a, l, -, -, h⟩ <;>
      rw [h]
  have hw2 : (Start.enter p2 env2).watcher = .notStarted := by
    rcases start_enter_cases p2 env2 with ⟨e, -, h⟩ | ⟨a, e, -, -, h⟩ | ⟨a, l, -, -, h⟩ <;>
      rw [h]
  have hmain : (∃ e, (Start.enter p1 env1).main = .returned (some e)) ∨
      (Start.enter p1 env1).main = .goWatcher := by
    rcases start_enter_cases p1 env1 with ⟨e, -, h⟩ | ⟨a, e, -, -, h⟩ | ⟨a, l, -, -, h⟩ <;>
      rw [h]
    · exact Or.inl ⟨e, rfl⟩
    · exact Or.inl ⟨e, rfl⟩
    · exact Or.inr rfl
  rcases hmain with ⟨e, he⟩ | hgo
  · obtain ⟨m1, w1⟩ := returned_reachable p1 env1 st1 (some e) ⟨he, hw1⟩ h1
    obtain ⟨m2, w2⟩ := returned_reachable p2 env2 st2 (some e)
      ⟨hbind ▸ he, hw2⟩ h2
    have d1 : dispatched st1.events = [] := by
      unfold AcceptInv at hi1
      rw [m1] at hi1
      simp only at hi1
      rcases hi1 with ⟨h, -⟩ | ⟨-, -, h⟩
      · exact absurd w1 h
      · exact h
    have d2 : dispatched st2.events = [] := by
      unfold AcceptInv at hi2
      rw [m2] at hi2
      simp only at hi2
      rcases hi2 with ⟨h, -⟩ | ⟨-, -, h⟩
      · exact absurd w2 h
      · exact h
    refine ⟨?_, fun _ => by rw [d1, d2], fun _ _ => by rw [d1, d2]⟩
    intro r
    rw [m1, m2]
  · obtain ⟨-, a1, r1, f1⟩ := accept_shape st1 hi1
      (started_reachable p1 env1 st1 hgo h1)
    obtain ⟨-, a2, r2, f2⟩ := accept_shape st2 hi2
      (started_reachable p2 env2 st2 (hbind ▸ hgo) h2)
    have hiff : ∀ r, st1.main = .returned r ↔ st2.main = .returned r := by
      intro r
      constructor
      · intro hr
        obtain ⟨e, rfl, hshape⟩ := r1 r hr
        refine f2 none e ?_
        rw [← hacc, hshape]
        simp
      · intro hr
        obtain ⟨e, rfl, hshape⟩ := r2 r hr
        refine f1 none e ?_
        rw [hacc, hshape]
        simp
    refine ⟨hiff, ?_, ?_⟩
    · rintro ⟨r, hr⟩
      obtain ⟨e1, -, s1⟩ := r1 r hr
      obtain ⟨e2, -, s2⟩ := r2 r ((hiff r).1 hr)
      rw [s1, s2] at hacc
      have := (List.append_inj' hacc rfl).1
      exact accepted_injective.list_map this
    · intro ha1 ha2
      have := hacc
      rw [a1 ha1, a2 ha2] at this
      exact accepted_injective.list_map this

/-- Instance: the same two connections are accepted in both runs; in
one the first handler fails for lack of backends and the second is still
running, in the other the first succeeds and the second gives up dialing. -/
theorem Start_isolation_witness :
    handlerResults exStartStateA.events ≠ handlerResults exStartStateB.events ∧
    (∀ r, exStartStateA.main = .returned r ↔ exStartStateB.main = .returned r) ∧
    ((∃ r, exStartStateA.main = .returned r) →
      dispatched exStartStateA.events = dispatched exStartStateB.events) ∧
    (exStartStateA.main = .accept → exStartStateB.main = .accept →
      dispatched exStartStateA.events = dispatched exStartStateB.events) :=
  ⟨by decide,
    Start_isolation exProxy exProxy exStartEnv exStartEnv exStartStateA
      exStartStateB rfl ⟨exStartSchedA, rfl⟩ ⟨exStartSchedB, rfl⟩ rfl⟩

/-- C10 fails on the code: after a successful bind and with `ctx` not
cancelled, the first `AcceptTCP` fails with "too many open files"; `Start`
returns that error, the watcher is still blocked in its `select`, and the
listener has not been closed. -/
theorem Start_listener_left_open :
    Start.run exProxy (Start.enter exProxy exStartEnv) exStartSchedLeak
      = some exStartStateLeak ∧
    exStartStateLeak.main = .returned (some "accept tcp: too many open files") ∧
    exStartStateLeak.l = some 3 ∧
    exStartStateLeak.ctxDone = false ∧
    exStartStateLeak.watcher = .selecting ∧
    listenersClosed exStartStateLeak.events = [] := by
  decide

end Motarei
